import Mathlib

/-!
Verification of the HR-assistant backend (Flask + ChromaDB + DeepSeek glue
service).  The Python sources under src/backend are shallowly embedded:

* Python strings are Lean `String`s (lists of unicode scalar chars).
* Python `str` helpers (`strip`, `replace`, `split`, `lower`, `in`, `startswith`,
  `endswith`) are re-implemented over `List Char` with Python semantics.
* `json.loads` is an executable recursive-descent JSON parser returning
  `Option PyVal` (`none` models a raised `JSONDecodeError`); `json.dumps` of the
  single-key answer object is modelled by `pyJsonDumpsAnswer`.
* Fallible operations return `Option`/sum types; a `none` models a raised
  Python exception at that point.
* ChromaDB query results are passed in as explicit data (the collections are
  external state); floats used only for ordering (distance scores) are
  modelled as `Int`.
-/

/-! ### Python string primitives -/

/-- The characters Python `str.strip()` removes (ASCII whitespace). -/
def pyIsSpace (c : Char) : Bool :=
  c = ' ' || c = '\t' || c = '\n' || c = '\r' || c = '\x0b' || c = '\x0c'

/-- Drop trailing characters satisfying `p`. -/
def dropEndWhile (p : Char → Bool) (l : List Char) : List Char :=
  (l.reverse.dropWhile p).reverse

/-- Python `s.strip()` on the underlying character list. -/
def pyStripList (l : List Char) : List Char :=
  dropEndWhile pyIsSpace (l.dropWhile pyIsSpace)

/-- Python `s.strip()`. -/
def pyStrip (s : String) : String := ⟨pyStripList s.data⟩

/-- Python `s.replace(pat, rep)` over character lists (all non-overlapping
occurrences, scanning left to right), for a non-empty pattern.  Structural
recursion on a fuel that bounds the input length (so the kernel can evaluate
it); the fuel never runs out. -/
def pyReplaceGo (pat rep : List Char) : Nat → List Char → List Char
  | _, [] => []
  | 0, l => l
  | fuel + 1, c :: r =>
    if pat ≠ [] ∧ pat.isPrefixOf (c :: r) then
      rep ++ pyReplaceGo pat rep fuel ((c :: r).drop pat.length)
    else
      c :: pyReplaceGo pat rep fuel r

/-- Python `s.replace(pat, rep)` on character lists. -/
def pyReplaceList (pat rep l : List Char) : List Char :=
  pyReplaceGo pat rep l.length l

/-- Python `s.replace(pat, rep)`. -/
def pyReplace (s pat rep : String) : String :=
  ⟨pyReplaceList pat.data rep.data s.data⟩

/-- Python substring test `pat in s` over lists. -/
def pyInfixList (pat : List Char) : List Char → Bool
  | [] => pat.isEmpty
  | c :: r => pat.isPrefixOf (c :: r) || pyInfixList pat r

/-- Python substring test `pat in s`. -/
def pyContains (s pat : String) : Bool := pyInfixList pat.data s.data

/-- Python `s.startswith(pat)`. -/
def pyStartsWith (s pat : String) : Bool := pat.data.isPrefixOf s.data

/-- Python `s.endswith(pat)`. -/
def pyEndsWith (s pat : String) : Bool := pat.data.isSuffixOf s.data

/-- Python `s.lower()` (ASCII case folding; the backend only compares ASCII
keywords). -/
def pyLower (s : String) : String := ⟨s.data.map Char.toLower⟩

/-- Python `s.split(sep)` for a non-empty separator `sep`, over lists:
splits at every non-overlapping occurrence, scanning left to right.  `acc`
holds the current piece, reversed; the fuel bounds the input length and
never runs out. -/
def pySplitGo (sep : List Char) : Nat → List Char → List Char → List (List Char)
  | _, acc, [] => [acc.reverse]
  | 0, acc, _ => [acc.reverse]
  | fuel + 1, acc, c :: r =>
    if sep ≠ [] ∧ sep.isPrefixOf (c :: r) then
      acc.reverse :: pySplitGo sep fuel [] ((c :: r).drop sep.length)
    else
      pySplitGo sep fuel (c :: acc) r

/-- Python `s.split(sep)` on character lists. -/
def pySplitList (sep acc l : List Char) : List (List Char) :=
  pySplitGo sep l.length acc l

/-- Python `s.split(sep)`. -/
def pySplit (s sep : String) : List String :=
  (pySplitList sep.data [] s.data).map fun l => ⟨l⟩

/-! ### document_service.py: extract_keywords (lines 127-153) -/

/-- The stopword set from `extract_keywords`. -/
def stopwords : List String :=
  ["find", "me", "a", "an", "the", "with", "years", "experience",
   "developer", "engineer", "for", "of"]

/-- A regex `\w` word character (ASCII model of the `\b\w+\b` tokenizer). -/
def pyIsWordChar (c : Char) : Bool := c.isAlphanum || c = '_'

/-- Single pass collecting maximal runs of word characters; `cur` is the
current run, reversed. -/
def wordRunsGo (cur : List Char) : List Char → List (List Char)
  | [] => if cur = [] then [] else [cur.reverse]
  | c :: r =>
    if pyIsWordChar c then wordRunsGo (c :: cur) r
    else if cur = [] then wordRunsGo [] r
    else cur.reverse :: wordRunsGo [] r

/-- Maximal runs of word characters: the matches of `re.findall(r"\b\w+\b", s)`. -/
def wordRuns (l : List Char) : List (List Char) := wordRunsGo [] l

/-- `extract_keywords`: lowercase, tokenize on non-word characters, drop
stopwords (document_service.py lines 127-153). -/
def extract_keywords (query : String) : List String :=
  ((wordRuns (pyLower query).data).map fun l => (⟨l⟩ : String)).filter
    fun w => w ∉ stopwords

/-! ### document_service.py: retrieve_relevant_resumes (lines 94-124) -/

/-- One retrieved resume entry: document text, its metadata (kept opaque as a
`String` id here; nothing inspects it), and the vector distance score.
Distance floats are modelled as `Int`: only their ordering is used. -/
structure RetrievedResume where
  text : String
  metadata : String
  score : Int
  deriving DecidableEq, Repr

/-- The slice of a ChromaDB `query` result that the code reads:
`documents`, `metadatas` and `distances` (each a list per query text). -/
structure ResumeQueryResult where
  documents : List (List String)
  metadatas : List (List String)
  distances : List (List Int)
  deriving Repr

/-- The loop of `retrieve_relevant_resumes`: for `i in range(len(documents[0]))`
read `documents[0][i]`, `metadatas[0][i]`, `distances[0][i]`.  A missing index
in the metadata or distance column is a raised `IndexError`, modelled as
`none`. -/
def alignRows : List String → List String → List Int → Option (List RetrievedResume)
  | [], _, _ => some []
  | t :: ds, m :: ms, s :: ss =>
    (alignRows ds ms ss).map fun rest => ⟨t, m, s⟩ :: rest
  | _ :: _, _, _ => none

/-- `retrieve_relevant_resumes` (document_service.py lines 94-124): keep rows
whose lowercased text contains at least one extracted keyword, then sort by
ascending distance score (`list.sort` is a stable sort; any stable sort with
the same comparison yields the same list). -/
def retrieve_relevant_resumes (query : String) (res : ResumeQueryResult) :
    Option (List RetrievedResume) :=
  match res.documents with
  | [] => some []
  | d0 :: _ =>
    let keywords := extract_keywords query
    match d0, res.metadatas, res.distances with
    | [], _, _ => some []
    | _ :: _, m0 :: _, s0 :: _ =>
      (alignRows d0 m0 s0).map fun rows =>
        List.insertionSort (fun a b => a.score ≤ b.score)
          (rows.filter fun r =>
            keywords.any fun k => pyContains (pyLower r.text) k)
    | _ :: _, _, _ => none

/-! ### document_service.py: retrieve_relevant_text (lines 24-74) -/

/-- The filter applied to each retrieved HR chunk (line 50):
`doc and doc.strip() and doc.strip() not in ["N/A", "N/A N/A"]`. -/
def hrChunkKeep (doc : String) : Bool :=
  doc ≠ "" ∧ pyStrip doc ≠ "" ∧ pyStrip doc ≠ "N/A" ∧ pyStrip doc ≠ "N/A N/A"

/-- `retrieve_relevant_text` (document_service.py lines 24-74).  `count` is
`hr_collection.count()`; `qres` is the `documents` field of the query result,
with `Except.error` modelling an exception raised anywhere inside the `try`
(the function then returns the empty string). -/
def retrieve_relevant_text (count : Nat)
    (qres : Except Unit (List (List String))) : String :=
  match qres with
  | .error _ => ""
  | .ok docLists =>
    if count = 0 then ""
    else if docLists.flatten.filter hrChunkKeep = [] then ""
    else if (pyStrip (String.intercalate "\n\n"
        (docLists.flatten.filter hrChunkKeep))).length < 10 then ""
    else String.intercalate "\n\n" (docLists.flatten.filter hrChunkKeep)

/-! ### ai_service.py: WhatsApp session store (lines 648-673) -/

/-- A WhatsApp session record.  Times are UTC timestamps in seconds
(`timedelta(hours=24)` is 86400 seconds). -/
structure WSession where
  created_at : Int
  last_message_time : Int
  user_type : String
  deriving DecidableEq, Repr

/-- The in-memory `whatsapp_sessions` dict: an insertion-ordered association
list (Python dicts preserve insertion order; updates keep position, new keys
append). -/
def SessionStore := List (String × WSession)

/-- Lookup by key (first match, as in a Python dict). -/
def storeLookup (st : List (String × WSession)) (k : String) : Option WSession :=
  match st with
  | [] => none
  | (p, s) :: r => if p = k then some s else storeLookup r k

/-- The expiry scan at the start of `get_or_create_whatsapp_session`
(lines 657-660): delete every session with `now - last_message_time`
strictly greater than 24 hours. -/
def cleanupSessions (now : Int) (st : List (String × WSession)) :
    List (String × WSession) :=
  st.filter fun e => ¬ (now - e.2.last_message_time > 86400)

/-- `get_or_create_whatsapp_session` (ai_service.py lines 654-673): expire old
sessions, then create (`user_type = "new"`) or refresh (`user_type =
"returning"`) the entry for `phone`.  Returns the new store and the session
returned to the caller. -/
def get_or_create_whatsapp_session (now : Int) (phone : String)
    (st : List (String × WSession)) :
    List (String × WSession) × WSession :=
  let st1 := cleanupSessions now st
  match storeLookup st1 phone with
  | none =>
    let s : WSession := ⟨now, now, "new"⟩
    (st1 ++ [(phone, s)], s)
  | some old =>
    let s : WSession := { old with last_message_time := now, user_type := "returning" }
    (st1.map fun e => if e.1 = phone then (e.1, s) else e, s)

/-! ### Python values and JSON (json.loads / json.dumps) -/

/-- A Python value as handled by the response-processing code: `None`, bools,
ints, floats (exact rationals; only truthiness is ever used), the non-finite
floats accepted by `json.loads` (`NaN`, `Infinity`, `-Infinity`), strings,
lists and dicts (insertion-ordered association lists). -/
inductive PyVal where
  | noneV : PyVal
  | boolV : Bool → PyVal
  | intV : Int → PyVal
  | floatV : ℚ → PyVal
  | nonfiniteV : String → PyVal
  | strV : String → PyVal
  | listV : List PyVal → PyVal
  | dictV : List (String × PyVal) → PyVal
  deriving Repr

/-- Python truthiness (`if not response:` etc.). -/
def pyFalsy : PyVal → Bool
  | .noneV => true
  | .boolV b => !b
  | .intV n => n = 0
  | .floatV q => q = 0
  | .nonfiniteV _ => false
  | .strV s => s = ""
  | .listV l => l.isEmpty
  | .dictV m => m.isEmpty

/-- Dict key test (`k in d`). -/
def pyHasKey (m : List (String × PyVal)) (k : String) : Bool := m.any (·.1 = k)

/-- Dict lookup (`d[k]`), first matching entry. -/
def pyLookup : List (String × PyVal) → String → Option PyVal
  | [], _ => none
  | (p, v) :: r, k => if p = k then some v else pyLookup r k

/-- Dict insertion as in parsing `{"a":1,"a":2}`: an existing key keeps its
position and is overwritten, a new key is appended. -/
def insertKey (m : List (String × PyVal)) (k : String) (v : PyVal) :
    List (String × PyVal) :=
  if pyHasKey m k then m.map fun e => if e.1 = k then (k, v) else e
  else m ++ [(k, v)]

/-- Hex digit for lowercase hex output. -/
def hexDigitChar (n : Nat) : Char :=
  if n < 10 then Char.ofNat (48 + n) else Char.ofNat (87 + n)

/-- Hex digit predicate for `\uXXXX` escapes. -/
def pyIsHex (c : Char) : Bool :=
  c.isDigit || ('a' ≤ c && c ≤ 'f') || ('A' ≤ c && c ≤ 'F')

/-- Numeric value of a hex digit. -/
def hexVal (c : Char) : Nat :=
  if c.isDigit then c.toNat - 48
  else if 'a' ≤ c && c ≤ 'f' then c.toNat - 87
  else if 'A' ≤ c && c ≤ 'F' then c.toNat - 55
  else 0

/-- Decode a single-character JSON escape (after the backslash). -/
def decodeEsc : Char → Option Char
  | '"' => some '"'
  | '\\' => some '\\'
  | '/' => some '/'
  | 'b' => some '\x08'
  | 'f' => some '\x0c'
  | 'n' => some '\n'
  | 'r' => some '\r'
  | 't' => some '\t'
  | _ => none

/-- Parse a JSON string body (after the opening quote), returning the decoded
characters and the input after the closing quote.  Matches `json.loads`
strictness: raw control characters and invalid escapes are errors.  Each
`\uXXXX` escape decodes independently (surrogate code units, which Python
would pair up and which a Lean `Char` cannot hold, degrade to `Char.ofNat`'s
default; no claim depends on such inputs). -/
def parseJStr : List Char → Option (List Char × List Char)
  | [] => none
  | c :: r =>
    if c = '"' then some ([], r)
    else if c = '\\' then
      match r with
      | [] => none
      | e :: r2 =>
        if e = 'u' then
          match r2 with
          | h1 :: h2 :: h3 :: h4 :: r3 =>
            if pyIsHex h1 && pyIsHex h2 && pyIsHex h3 && pyIsHex h4 then
              (parseJStr r3).map fun p =>
                (Char.ofNat (((hexVal h1 * 16 + hexVal h2) * 16 + hexVal h3) * 16
                  + hexVal h4) :: p.1, p.2)
            else none
          | _ => none
        else
          match decodeEsc e with
          | some d => (parseJStr r2).map fun p => (d :: p.1, p.2)
          | none => none
    else if c.toNat < 0x20 then none
    else (parseJStr r).map fun p => (c :: p.1, p.2)

/-- JSON whitespace (the only whitespace `json.loads` skips). -/
def jsonWs (c : Char) : Bool := c = ' ' || c = '\t' || c = '\n' || c = '\r'

/-- Skip JSON whitespace. -/
def skipWs (l : List Char) : List Char := l.dropWhile jsonWs

/-- Digits to a natural number. -/
def digitsToNat (l : List Char) : Nat := l.foldl (fun a c => a * 10 + (c.toNat - 48)) 0

/-- Optional sign in an exponent part (`-`, `+`, or nothing). -/
def expSign (l : List Char) : Bool × List Char :=
  match l with
  | '-' :: r => (true, r)
  | '+' :: r => (false, r)
  | _ => (false, l)

/-- Optional leading minus of a number literal. -/
def numSign (l : List Char) : Bool × List Char :=
  match l with
  | '-' :: r => (true, r)
  | _ => (false, l)

/-- Optional fraction part after the integer digits: the fraction digits and
the remaining input. -/
def fracPart (r1 : List Char) : List Char × List Char :=
  match r1 with
  | '.' :: r => (r.takeWhile Char.isDigit, r.dropWhile Char.isDigit)
  | _ => ([], r1)

/-- Parse the exponent part (after `e`/`E`): optional sign then digits. -/
def parseExpPart (l : List Char) : Option (Int × List Char) :=
  let (neg, l1) : Bool × List Char := expSign l
  let ds := l1.takeWhile Char.isDigit
  if ds = [] then none
  else some ((if neg then -(digitsToNat ds : Int) else (digitsToNat ds : Int)),
             l1.dropWhile Char.isDigit)

/-- Parse a JSON number.  Integer literals give Python ints; a fraction or
exponent gives a float (modelled exactly as a rational).  Leading zeros are
rejected as in `json.loads`. -/
def parseJNum (l : List Char) : Option (PyVal × List Char) :=
  let (neg, l1) : Bool × List Char := numSign l
  let ip := l1.takeWhile Char.isDigit
  let r1 := l1.dropWhile Char.isDigit
  if ip = [] then none
  else if 1 < ip.length ∧ ip.headD '1' = '0' then none
  else
    let ipN : Nat := digitsToNat ip
    let (fr, r2) : List Char × List Char := fracPart r1
    if r1 ≠ r2 ∧ fr = [] then none
    else
      let hasFrac := r1 ≠ r2
      match r2 with
      | 'e' :: r3 =>
        (parseExpPart r3).map fun p =>
          (.floatV ((if neg then -1 else 1) *
            ((ipN * 10 ^ fr.length + digitsToNat fr : ℚ) / 10 ^ fr.length) * 10 ^ p.1), p.2)
      | 'E' :: r3 =>
        (parseExpPart r3).map fun p =>
          (.floatV ((if neg then -1 else 1) *
            ((ipN * 10 ^ fr.length + digitsToNat fr : ℚ) / 10 ^ fr.length) * 10 ^ p.1), p.2)
      | _ =>
        if hasFrac then
          some (.floatV ((if neg then -1 else 1) *
            ((ipN * 10 ^ fr.length + digitsToNat fr : ℚ) / 10 ^ fr.length)), r2)
        else
          some (.intV (if neg then -(ipN : Int) else (ipN : Int)), r2)

mutual

/-- Parse a JSON value (fuelled recursive descent; the fuel is decremented on
every nested call and `pyJsonLoads` supplies more fuel than input length, so
it never runs out). -/
def parseJVal : Nat → List Char → Option (PyVal × List Char)
  | 0, _ => none
  | fuel + 1, l =>
    match skipWs l with
    | [] => none
    | c :: r =>
      if c = '{' then
        match skipWs r with
        | '}' :: r2 => some (.dictV [], r2)
        | r2 => parseJMembers fuel r2 []
      else if c = '[' then
        match skipWs r with
        | ']' :: r2 => some (.listV [], r2)
        | r2 => parseJItems fuel r2 []
      else if c = '"' then (parseJStr r).map fun p => (.strV ⟨p.1⟩, p.2)
      else if "true".data.isPrefixOf (c :: r) then
        some (.boolV true, (c :: r).drop 4)
      else if "false".data.isPrefixOf (c :: r) then
        some (.boolV false, (c :: r).drop 5)
      else if "null".data.isPrefixOf (c :: r) then
        some (.noneV, (c :: r).drop 4)
      else if "NaN".data.isPrefixOf (c :: r) then
        some (.nonfiniteV "nan", (c :: r).drop 3)
      else if "Infinity".data.isPrefixOf (c :: r) then
        some (.nonfiniteV "inf", (c :: r).drop 8)
      else if "-Infinity".data.isPrefixOf (c :: r) then
        some (.nonfiniteV "-inf", (c :: r).drop 9)
      else parseJNum (c :: r)

/-- Parse object members, positioned at a key (after any whitespace). -/
def parseJMembers : Nat → List Char → List (String × PyVal) →
    Option (PyVal × List Char)
  | 0, _, _ => none
  | fuel + 1, l, acc =>
    match l with
    | '"' :: r =>
      match parseJStr r with
      | none => none
      | some (key, r1) =>
        match skipWs r1 with
        | ':' :: r2 =>
          match parseJVal fuel r2 with
          | none => none
          | some (v, r3) =>
            let acc2 := insertKey acc ⟨key⟩ v
            match skipWs r3 with
            | ',' :: r4 => parseJMembers fuel (skipWs r4) acc2
            | '}' :: r4 => some (.dictV acc2, r4)
            | _ => none
        | _ => none
    | _ => none

/-- Parse array items, positioned at a value. -/
def parseJItems : Nat → List Char → List PyVal → Option (PyVal × List Char)
  | 0, _, _ => none
  | fuel + 1, l, acc =>
    match parseJVal fuel l with
    | none => none
    | some (v, r) =>
      match skipWs r with
      | ',' :: r2 => parseJItems fuel r2 (acc ++ [v])
      | ']' :: r2 => some (.listV (acc ++ [v]), r2)
      | _ => none

end

/-- `json.loads`: parse a complete JSON document; `none` models a raised
`JSONDecodeError`. -/
def pyJsonLoads (s : String) : Option PyVal :=
  match parseJVal (s.data.length + 1) s.data with
  | some (v, r) => if skipWs r = [] then some v else none
  | none => none

/-- Escape one character as `json.dumps` does (short escapes for the usual
control characters, `\u00XX` for the rest below 0x20; the `ensure_ascii`
escaping of characters ≥ 0x80 is omitted — it does not change
`loads ∘ dumps`). -/
def escChar (c : Char) : List Char :=
  if c = '"' then ['\\', '"']
  else if c = '\\' then ['\\', '\\']
  else if c = '\n' then ['\\', 'n']
  else if c = '\t' then ['\\', 't']
  else if c = '\r' then ['\\', 'r']
  else if c = '\x08' then ['\\', 'b']
  else if c = '\x0c' then ['\\', 'f']
  else if c.toNat < 0x20 then
    ['\\', 'u', '0', '0', hexDigitChar (c.toNat / 16), hexDigitChar (c.toNat % 16)]
  else [c]

/-- JSON-escape a character list. -/
def escList (l : List Char) : List Char := l.flatMap escChar

/-- `json.dumps({"answer": c})` (ai_service.py line 75): the exact wrapped
string produced for plain-text model output. -/
def pyJsonDumpsAnswer (c : String) : String :=
  ⟨"\x7b\"answer\": \"".data ++ escList c.data ++ "\"\x7d".data⟩

/-! ### Python str()/repr() rendering (used by the str(response) fallbacks) -/

/-- Python `repr` of a string: quote choice and escaping as CPython does for
ASCII content (single quotes unless the string has a single quote and no
double quote; backslash escapes for the quote, backslashes and the usual
control characters, `\xXX` for other controls). -/
def pyReprStr (s : String) : String :=
  let useDouble := s.data.contains '\'' && !(s.data.contains '"')
  let q : Char := if useDouble then '"' else '\''
  let esc : Char → List Char := fun c =>
    if c = q then ['\\', q]
    else if c = '\\' then ['\\', '\\']
    else if c = '\n' then ['\\', 'n']
    else if c = '\r' then ['\\', 'r']
    else if c = '\t' then ['\\', 't']
    else if c.toNat < 0x20 ∨ c.toNat = 0x7f then
      ['\\', 'x', hexDigitChar (c.toNat / 16), hexDigitChar (c.toNat % 16)]
    else [c]
  ⟨q :: s.data.flatMap esc ++ [q]⟩

/-- Render a float modelled as an exact rational.  CPython prints the shortest
round-tripping decimal; nothing in the backend inspects this text (it is only
ever fed through `replace`/`strip`), so a plain exact rendering is used. -/
def pyReprFloat (q : ℚ) : String :=
  if q.den = 1 then toString q.num ++ ".0"
  else toString q.num ++ "/" ++ toString q.den

mutual

/-- Python `repr` of a value (elements of containers are shown with `repr`). -/
def pyReprV : PyVal → String
  | .noneV => "None"
  | .boolV b => if b then "True" else "False"
  | .intV n => toString n
  | .floatV q => pyReprFloat q
  | .nonfiniteV s => s
  | .strV s => pyReprStr s
  | .listV l => "[" ++ pyReprItems l ++ "]"
  | .dictV m => "\x7b" ++ pyReprEntries m ++ "\x7d"

/-- Comma-separated reprs of list items. -/
def pyReprItems : List PyVal → String
  | [] => ""
  | [x] => pyReprV x
  | x :: r => pyReprV x ++ ", " ++ pyReprItems r

/-- Comma-separated reprs of dict entries. -/
def pyReprEntries : List (String × PyVal) → String
  | [] => ""
  | [(k, v)] => pyReprStr k ++ ": " ++ pyReprV v
  | (k, v) :: r => pyReprStr k ++ ": " ++ pyReprV v ++ ", " ++ pyReprEntries r

end

/-- Python `str()`: the string itself for strings, `repr` rendering
otherwise. -/
def pyStrOf : PyVal → String
  | .strV s => s
  | v => pyReprV v

/-! ### ai_service.py: process_deepseek_response (lines 289-497) -/

/-- The apology fallback returned for empty/unextractable answers
(lines 295, 303, 415, 432 and the WhatsApp handler line 612). -/
def fb1 : String :=
  "I apologize, but I couldn't generate a proper response. Can you send that message again?"

/-- The final fallback at line 497, reached on fall-through or after the
catch-all handler. -/
def fb2 : String := "I'm not sure how to answer that."

/-- The Telegram handler's empty-reply fallback (line 542). -/
def fbT : String :=
  "I apologize, but I couldn't generate a proper response. How else can I help you?"

/-- The standard answer clean-up: remove every `*`, then strip. -/
def cleanAns (a : String) : String := pyStrip (pyReplace a "*" "")

/-- Line 302: `response == '{"answer": ""}' or response == {"answer": ""}`. -/
def isEmptyAnswerLit : PyVal → Bool
  | .strV s => s = "\x7b\"answer\": \"\"\x7d"
  | .dictV [(k, .strV v)] => k = "answer" && v = ""
  | _ => false

/-- Python `"answer" in x` for a `json.loads` result evaluated inside a
`try`: key test on dicts, substring test on strings, membership on lists
(`none` models the `TypeError` raised on numbers, bools and `None`). -/
def pyInAnswer : PyVal → Option Bool
  | .dictV m => some (pyHasKey m "answer")
  | .strV s => some (pyContains s "answer")
  | .listV l => some (l.any fun v => match v with | .strV x => x = "answer" | _ => false)
  | _ => none

/-- The code-fence extraction `a.split("```json")[1].split("```")[0].strip()`
(lines 333 / 355 / 438-442; guarded by the substring test, so index 1
exists). -/
def fenceExtract (a : String) : String :=
  pyStrip ((pySplit ((pySplit a "```json").getD 1 "") "```").getD 0 "")

/-- One code-fence unwrapping attempt (the try blocks at lines 331-342,
352-365, 436-451): parse the extracted text and return the cleaned string
answer; every failure — parse error, no dict, no `"answer"` key, a non-string
answer, or a `TypeError` swallowed by the bare `except` — falls through. -/
def fenceAnswer (a : String) : Option String :=
  match pyJsonLoads (fenceExtract a) with
  | some (.dictV m) =>
    match pyLookup m "answer" with
    | some (.strV x) => some (cleanAns x)
    | _ => none
  | _ => none

/-- The guarded code-fence branch: attempt the unwrapping only when the text
contains a ```json opener (the `if` at lines 330, 351 and 435). -/
def fenceAttempt (a : String) : Option String :=
  if pyContains a "```json" then fenceAnswer a else none

/-- Lines 367-386 (dict-response branch, string answer): if the answer looks
like a JSON object, try to unwrap a nested string answer; otherwise (or on
any failure) return the answer cleaned. -/
def dictStrTail (a : String) : String :=
  if pyStartsWith (pyStrip a) "\x7b" && pyEndsWith (pyStrip a) "\x7d" then
    match pyJsonLoads a with
    | some (.dictV mi) =>
      match pyLookup mi "answer" with
      | some (.strV x) => cleanAns x
      | _ => cleanAns a
    | _ => cleanAns a
  else cleanAns a

/-- Line 395-396 (and 486-487): `str(...)` then remove asterisks and strip. -/
def strReprClean (v : PyVal) : String := cleanAns (pyStrOf v)

/-- The dict-response branch of the big `try` (lines 346-396).  It always
returns (no statement in it can raise). -/
def processDictPath (m : List (String × PyVal)) : String :=
  match pyLookup m "answer" with
  | none => strReprClean (.dictV m)
  | some ac =>
    match ac with
    | .strV a =>
      match fenceAttempt a with
      | some out => out
      | none => dictStrTail a
    | .dictV m2 =>
      match pyLookup m2 "answer" with
      | some (.strV x) =>
        -- line 391: note only doubled asterisks are removed on this path
        pyStrip (pyReplace x "**" "")
      | _ => strReprClean (.dictV m)
    | _ => strReprClean (.dictV m)

/-- Outcome of the inner `try` over a string response (lines 405-487):
a returned value, a `JSONDecodeError` (handled at line 489), or any other
exception (propagating to the catch-all at line 494). -/
inductive InnerOut where
  | ret : String → InnerOut
  | decodeErr : InnerOut
  | raised : InnerOut
  deriving DecidableEq, Repr

/-- Lines 428-483: processing of `answer_content` (`ac`) extracted from the
parsed string response `rd`. -/
def answerBlock (rd ac : PyVal) : InnerOut :=
  if pyFalsy ac then .ret fb1
  else
    match ac with
    | .strV a =>
      if pyStrip a = "" then .ret fb1
      else
        match fenceAttempt a with
        | some out => .ret out
        | none =>
          if pyStartsWith (pyStrip a) "\x7b" then
            match pyJsonLoads a with
            | none => .ret (cleanAns a)       -- bare except at 465: return cleaned a
            | some (.dictV mi) =>
              match pyLookup mi "answer" with
              | some (.strV x) => .ret (cleanAns x)
              | some _ => .ret (strReprClean rd)  -- non-string nested answer: line 486
              | none => .ret (strReprClean rd)    -- no key: line 486
            | some inner =>
              -- non-dict parse: `"answer" in inner` may raise (caught: return
              -- cleaned a), succeed and raise on indexing (same), or be False
              -- (fall through to line 486)
              match pyInAnswer inner with
              | none => .ret (cleanAns a)
              | some true => .ret (cleanAns a)
              | some false => .ret (strReprClean rd)
          else .ret (cleanAns a)               -- else branch, line 480-483
    | .dictV m2 =>
      match pyLookup m2 "answer" with
      | some (.strV x) => .ret (cleanAns x)    -- line 477 removes every *
      | some _ => .ret (strReprClean rd)       -- falls through to line 486
      | none => .raised                        -- else branch: dict.strip() raises
    | _ => .raised                             -- else branch: .strip() on non-str raises

/-- Lines 424-487: handling of the `json.loads` result `rd` of the whole
string response. -/
def stepB (rd : PyVal) : InnerOut :=
  match pyInAnswer rd with
  | none => .raised                            -- TypeError from `in` at line 425
  | some false => .ret (strReprClean rd)       -- line 486
  | some true =>
    match rd with
    | .dictV m =>
      match pyLookup m "answer" with
      | some ac => answerBlock rd ac
      | none => .ret (strReprClean rd)
    | _ => .raised                             -- rd["answer"] raises at line 426

/-- Lines 406-419: the shortcut for responses that look like
`{"answer": ...}`.  `none` means no return happened and control reaches
line 421. -/
def stepA (rd : PyVal) : Option InnerOut :=
  match pyInAnswer rd with
  | none => some .raised
  | some false => none
  | some true =>
    match rd with
    | .dictV m =>
      match pyLookup m "answer" with
      | some ac =>
        if pyFalsy ac then some (.ret fb1)
        else
          match ac with
          | .strV a =>
            if pyStrip a = "" then some (.ret fb1)
            else some (.ret (pyStrip (pyReplace a "*" "")))
          | _ => some .raised                  -- ac.strip() on non-str at line 414
      | none => none
    | _ => some .raised                        -- rd["answer"] raises at line 412

/-- The inner `try` over a string response (lines 405-487).  Both branches
first `json.loads` the whole response (lines 410 and 422 parse the same
string), so the parse is hoisted: a parse failure is a `JSONDecodeError` on
either path. -/
def processStrInner (s : String) : InnerOut :=
  match pyJsonLoads s with
  | none => .decodeErr
  | some rd =>
    if pyStartsWith (pyStrip s) "\x7b\"answer\":" && pyEndsWith (pyStrip s) "\x7d" then
      match stepA rd with
      | some out => out
      | none => stepB rd
    else stepB rd

/-- Outcome of the big `try` (lines 344-493): a returned value, a fall-through
off its end, or an exception caught by the handler at line 494.  Both of the
latter reach the final `return` at line 497. -/
inductive TryOut where
  | ret : String → TryOut
  | fell : TryOut
  | raised : TryOut
  deriving DecidableEq, Repr

/-- The string-response part of the big `try` (lines 398-492), including the
`json.JSONDecodeError` handler at lines 489-492. -/
def processStrTry (s : String) : TryOut :=
  if pyStrip s = "" then .ret fb1              -- line 401
  else
    match processStrInner s with
    | .ret v => .ret v
    | .raised => .raised
    | .decodeErr =>
      if pyStrip s ≠ "" then .ret (pyReplace (pyStrip s) "*" "")  -- line 492
      else .fell

/-- The big `try` body (lines 344-493). -/
def processTry : PyVal → TryOut
  | .dictV m => .ret (processDictPath m)
  | .strV s => processStrTry s
  | _ => .fell                                 -- neither dict nor string

/-- Line 306-311: single-key dict whose `"answer"` is a string.  (The nested
`isinstance(response, str)` re-check at lines 313-327 is inside this dict
branch and therefore dead.) -/
def step306 : PyVal → Option String
  | .dictV m =>
    if m.length = 1 && pyHasKey m "answer" then
      match pyLookup m "answer" with
      | some (.strV a) => some (pyStrip (pyReplace a "*" ""))
      | _ => none
    else none
  | _ => none

/-- Line 330-342: the code-fence branch on a string response. -/
def step330 : PyVal → Option String
  | .strV s => fenceAttempt s
  | _ => none

/-- `process_deepseek_response` (ai_service.py lines 289-497). -/
def process_deepseek_response (response : PyVal) : String :=
  if pyFalsy response then fb1                       -- line 294
  else if isEmptyAnswerLit response then fb1         -- line 302
  else
    match step306 response with
    | some out => out
    | none =>
      match step330 response with
      | some out => out
      | none =>
        match processTry response with
        | .ret out => out
        | .fell => fb2                               -- line 497
        | .raised => fb2                             -- lines 494-497

/-! ### ai_service.py: webhook reply pipelines (lines 503-621) -/

/-- `re.sub(r"```(?:json|python|)\n", "", text)`: remove every occurrence of
a code-fence opener, trying the alternatives in regex order at each position
and scanning left to right. -/
def reSubFenceGo : Nat → List Char → List Char
  | _, [] => []
  | 0, l => l
  | fuel + 1, c :: r =>
    if "```json\n".data.isPrefixOf (c :: r) then
      reSubFenceGo fuel ((c :: r).drop 8)
    else if "```python\n".data.isPrefixOf (c :: r) then
      reSubFenceGo fuel ((c :: r).drop 10)
    else if "```\n".data.isPrefixOf (c :: r) then
      reSubFenceGo fuel ((c :: r).drop 4)
    else c :: reSubFenceGo fuel r

/-- The `re.sub` scan with the fuel instantiated. -/
def reSubFenceList (l : List Char) : List Char := reSubFenceGo l.length l

/-- The code-block clean-up shared by both webhook handlers (lines 524-527
and 596-598): if the text contains three backticks, apply the `re.sub` above
and then delete every remaining "```". -/
def fenceCleanStep (p : String) : String :=
  if pyContains p "```" then pyReplace ⟨reSubFenceList p.data⟩ "```" "" else p

/-- The JSON unwrapping shared by both webhook handlers (lines 530-538 and
601-609): if the text looks like a JSON object and parses to a dict with an
`"answer"` key, replace the text by that value (which need not be a string);
any exception inside the `try` leaves the text unchanged. -/
def unwrapAnswer (p : String) : PyVal :=
  if pyStartsWith (pyStrip p) "\x7b" && pyEndsWith (pyStrip p) "\x7d" then
    match pyJsonLoads p with
    | some (.dictV m) =>
      match pyLookup m "answer" with
      | some v => v
      | none => .strV p
    | _ => .strV p
  else .strV p

/-- The Telegram handler's reply computation from the raw
`answer_hr_question` result (lines 519-542).  `none` models an exception
(`response_text.strip()` on a non-string unwrapped value), caught by the
handler's outer `try`. -/
def tgReplyText (raw : String) : Option String :=
  let v := unwrapAnswer (fenceCleanStep (process_deepseek_response (.strV raw)))
  if pyFalsy v then some fbT
  else
    match v with
    | .strV s => if pyStrip s = "" then some fbT else some s
    | _ => none

/-- The WhatsApp handler's reply computation from the raw
`answer_hr_question` result (lines 592-612).  `none` models an exception
(`processed_answer.strip()` on a non-string unwrapped value), caught at
line 619 (returning a 500 error). -/
def waReplyText (raw : String) : Option String :=
  match unwrapAnswer (fenceCleanStep (process_deepseek_response (.strV raw))) with
  | .strV s => if pyStrip s = "" then some fb1 else some s
  | _ => none

/-- Python `x[k]` where a missing key or a non-dict raises (modelled as
`none`). -/
def pyIndex : PyVal → String → Option PyVal
  | .dictV m, k => pyLookup m k
  | _, _ => none

/-- Python `x.get(k, d)`: only valid on dicts. -/
def pyGetD (v : PyVal) (k : String) (d : PyVal) : Option PyVal :=
  match v with
  | .dictV m => some ((pyLookup m k).getD d)
  | _ => none

/-- Environment of one Telegram webhook call: the outcome of
`answer_hr_question` (`none` = raised) and of the `requests.post` to the
Telegram API (`none` = raised, otherwise the HTTP status code). -/
structure TgEnv where
  answerResult : Option String
  sendStatus : Option Nat

/-- `handle_telegram_request` (ai_service.py lines 503-559): returns the
response body label and HTTP status, or `none` when an exception escapes the
handler (only possible before the `try`, in the `chat_id`/`text`
extraction — Flask then produces a 500). -/
def handle_telegram_request (data : PyVal) (env : TgEnv) : Option (String × Nat) :=
  match pyIndex data "message" with
  | none => none
  | some msg =>
    match pyIndex msg "chat" with
    | none => none
    | some chat =>
      match pyIndex chat "id" with
      | none => none
      | some _ =>
        match pyGetD msg "text" (.strV "") with
        | some (.strV t) =>
          if pyStrip t = "" then some ("No question provided", 200)
          else
            match env.answerResult with
            | none => some ("Error but acknowledged", 200)
            | some raw =>
              match tgReplyText raw with
              | none => some ("Error but acknowledged", 200)
              | some _ =>
                match env.sendStatus with
                | none => some ("Error but acknowledged", 200)
                | some code =>
                  if code ≠ 200 then some ("Message processed but sending failed", 200)
                  else some ("Message processed", 200)
        | _ => none

/-! ### main.py route handlers (C8) -/

/-- Outcome of a POST to `/ask-hr`: HTTP status and whether
`answer_hr_question` ran. -/
structure AskHrOutcome where
  status : Nat
  invoked_answer : Bool
  deriving DecidableEq, Repr

/-- `ask_hr_api` (main.py lines 213-228): validate, then delegate. -/
def ask_hr_api (body : List (String × PyVal)) : AskHrOutcome :=
  if pyHasKey body "question" then ⟨200, true⟩
  else ⟨400, false⟩

/-- Outcome of a POST to `/analyze-resume`: HTTP status and which services
ran. -/
structure AnalyzeResumeOutcome where
  status : Nat
  invoked_retrieve : Bool
  invoked_llm : Bool
  deriving DecidableEq, Repr

/-- `analyze_resume_api` (main.py lines 56-94): validate the query, retrieve
and rank resumes, and only call the LLM when matches exist.  `retrieved` is
the result the retrieval produces when invoked. -/
def analyze_resume_api (body : List (String × PyVal))
    (retrieved : List RetrievedResume) : AnalyzeResumeOutcome :=
  let query := (pyLookup body "query").getD (.strV "")
  if pyFalsy query then ⟨400, false, false⟩
  else if retrieved.isEmpty then ⟨200, true, false⟩
  else ⟨200, true, true⟩

/-! ### ai_service.py: query_deepseek content formatting (lines 71-82) -/

/-- The wrap step of `query_deepseek` applied to a successfully received,
non-empty model content string: plain text (not already shaped like a JSON
object) is wrapped as `json.dumps({"answer": content})`. -/
def query_deepseek_format (content : String) : String :=
  if !(pyStartsWith (pyStrip content) "\x7b" && pyEndsWith (pyStrip content) "\x7d") then
    pyJsonDumpsAnswer content
  else content


/-- Shape test: a dict response whose `"answer"` value is itself a dict (the
one extraction path, line 391, that removes only doubled asterisks). -/
def answerNestedDict : PyVal → Bool
  | .dictV m =>
    match pyLookup m "answer" with
    | some (.dictV _) => true
    | _ => false
  | _ => false

/-- A Telegram update whose message has a chat id but a non-string `text`
(used to exhibit the uncaught `AttributeError` at line 508). -/
def tgNonStringTextUpdate : PyVal :=
  .dictV [("message", .dictV
    [("chat", .dictV [("id", .intV 1)]), ("text", .intV 5)])]

/-! ### Clean-quote counting (used to rule out the code-fence branch on
wrapped output) -/

/-- Count of `"` characters not immediately preceded by a backslash, scanning
with `b` = "previous character was a backslash". -/
def cqB : Bool → List Char → Nat
  | _, [] => 0
  | b, c :: r => (if c = '"' ∧ b = false then 1 else 0) + cqB (decide (c = '\\')) r

/-- Backslash-state after scanning a list (`b` = state before the list). -/
def stB : Bool → List Char → Bool
  | b, [] => b
  | _, c :: r => stB (decide (c = '\\')) r

/-! ## Theorems -/

/-! ### C4: WhatsApp session store invariant -/

theorem storeLookup_append_left_none {l1 l2 : List (String × WSession)} {k : String}
    (h : storeLookup l1 k = none) : storeLookup (l1 ++ l2) k = storeLookup l2 k := by
  induction l1 with
  | nil => simp
  | cons e r ih =>
    obtain ⟨p, v⟩ := e
    by_cases hp : p = k <;> simp [storeLookup, hp] at h ⊢
    exact ih h

theorem storeLookup_update {l : List (String × WSession)} {k : String} {old s : WSession}
    (h : storeLookup l k = some old) :
    storeLookup (l.map fun e => if e.1 = k then (e.1, s) else e) k = some s := by
  induction l with
  | nil => simp [storeLookup] at h
  | cons e r ih =>
    obtain ⟨p, v⟩ := e
    by_cases hp : p = k
    · subst hp
      show storeLookup ((if (p, v).1 = p then ((p, v).1, s) else (p, v)) :: _) p = some s
      rw [if_pos rfl]
      simp [storeLookup]
    · simp only [storeLookup, if_neg hp] at h
      show storeLookup ((if (p, v).1 = k then ((p, v).1, s) else (p, v)) :: _) k = some s
      rw [if_neg hp]
      simp only [storeLookup, if_neg hp]
      exact ih h

/-- C4: after every call to `get_or_create_whatsapp_session`, no stored
session has a `last_message_time` more than 24 hours before the current time
(the expiry scan deleted them and the touched entry is fresh), and the
requested phone number maps to a session whose `last_message_time` equals the
current time, with `user_type` `"new"` exactly when the number was absent or
expired before the call and `"returning"` otherwise. -/
theorem c4_session_invariant (now : Int) (phone : String)
    (st : List (String × WSession)) :
    (∀ p sess, (p, sess) ∈ (get_or_create_whatsapp_session now phone st).1 →
        ¬ (now - sess.last_message_time > 86400))
    ∧ storeLookup (get_or_create_whatsapp_session now phone st).1 phone =
        some (get_or_create_whatsapp_session now phone st).2
    ∧ (get_or_create_whatsapp_session now phone st).2.last_message_time = now
    ∧ (get_or_create_whatsapp_session now phone st).2.user_type =
        (if storeLookup (cleanupSessions now st) phone = none then "new"
         else "returning") := by
  rcases hl : storeLookup (cleanupSessions now st) phone with _ | old <;>
    simp only [get_or_create_whatsapp_session, hl]
  · refine ⟨?_, ?_, by simp, by simp⟩
    · intro p sess hmem
      simp only [List.mem_append, List.mem_singleton, Prod.mk.injEq] at hmem
      rcases hmem with hmem | ⟨rfl, rfl⟩
      · have := (List.mem_filter.mp hmem).2
        simpa using of_decide_eq_true this
      · simp
    · rw [storeLookup_append_left_none hl]
      simp [storeLookup]
  · refine ⟨?_, storeLookup_update hl, by simp, by simp⟩
    intro p sess hmem
    simp only [List.mem_map] at hmem
    obtain ⟨e, he, heq⟩ := hmem
    by_cases hp : e.1 = phone
    · rw [if_pos hp] at heq
      have hsess : sess = { old with last_message_time := now, user_type := "returning" } := by
        have h2 := congrArg Prod.snd heq
        simpa using h2.symm
      simp [hsess]
    · rw [if_neg hp] at heq
      have hsess : sess = e.2 := by rw [heq]
      have h2 := (List.mem_filter.mp he).2
      rw [hsess]
      simpa using of_decide_eq_true h2

/-! ### C7: retrieve_relevant_text filtering and empty-result cases -/

theorem hrChunkKeep_eq (d : String) :
    hrChunkKeep d =
      decide (pyStrip d ≠ "" ∧ pyStrip d ≠ "N/A" ∧ pyStrip d ≠ "N/A N/A") := by
  by_cases h0 : pyStrip d = ""
  · simp [hrChunkKeep, h0]
  · have hd : d ≠ "" := by
      intro h
      apply h0
      rw [h]
      rfl
    simp [hrChunkKeep, hd, h0]

/-- C7: `retrieve_relevant_text` returns the retrieved chunks that are
non-empty after stripping and (after stripping) differ from the literals
`"N/A"` and `"N/A N/A"`, joined by `"\n\n"`; and it returns the empty string
exactly when the collection is empty, no chunk survives the filter, the
joined text strips to fewer than 10 characters, or retrieval raised an
exception. -/
theorem c7_retrieve_relevant_text (count : Nat) (docs : List (List String)) :
    (retrieve_relevant_text count (.ok docs) = "" ∨
      retrieve_relevant_text count (.ok docs) =
        String.intercalate "\n\n" (docs.flatten.filter fun d =>
          pyStrip d ≠ "" ∧ pyStrip d ≠ "N/A" ∧ pyStrip d ≠ "N/A N/A"))
    ∧ (retrieve_relevant_text count (.ok docs) = "" ↔
        (count = 0 ∨
          docs.flatten.filter (fun d =>
            pyStrip d ≠ "" ∧ pyStrip d ≠ "N/A" ∧ pyStrip d ≠ "N/A N/A") = [] ∨
          (pyStrip (String.intercalate "\n\n" (docs.flatten.filter fun d =>
            pyStrip d ≠ "" ∧ pyStrip d ≠ "N/A" ∧ pyStrip d ≠ "N/A N/A"))).length < 10))
    ∧ retrieve_relevant_text count (.error ()) = "" := by
  have hfil : docs.flatten.filter hrChunkKeep =
      docs.flatten.filter (fun d =>
        decide (pyStrip d ≠ "" ∧ pyStrip d ≠ "N/A" ∧ pyStrip d ≠ "N/A N/A")) := by
    apply List.filter_congr
    intro d _
    exact hrChunkKeep_eq d
  have hbody : retrieve_relevant_text count (.ok docs) =
      (if count = 0 then ""
       else if docs.flatten.filter hrChunkKeep = [] then ""
       else if (pyStrip (String.intercalate "\n\n"
           (docs.flatten.filter hrChunkKeep))).length < 10 then ""
       else String.intercalate "\n\n" (docs.flatten.filter hrChunkKeep)) := rfl
  rw [hfil] at hbody
  refine ⟨?_, ?_, rfl⟩
  · rw [hbody]
    split
    · exact Or.inl rfl
    · split
      · exact Or.inl rfl
      · split
        · exact Or.inl rfl
        · exact Or.inr rfl
  · rw [hbody]
    constructor
    · intro h
      by_cases hc : count = 0
      · exact Or.inl hc
      rw [if_neg hc] at h
      by_cases hrel : docs.flatten.filter (fun d =>
          decide (pyStrip d ≠ "" ∧ pyStrip d ≠ "N/A" ∧ pyStrip d ≠ "N/A N/A")) = []
      · exact Or.inr (Or.inl hrel)
      rw [if_neg hrel] at h
      by_cases hlen : (pyStrip (String.intercalate "\n\n"
          (docs.flatten.filter fun d =>
            decide (pyStrip d ≠ "" ∧ pyStrip d ≠ "N/A" ∧ pyStrip d ≠ "N/A N/A")))).length < 10
      · exact Or.inr (Or.inr hlen)
      rw [if_neg hlen] at h
      exact absurd hlen (by
        rw [h]
        intro hcon
        exact hcon (by simp [pyStrip, pyStripList, dropEndWhile]))
    · intro h
      rcases h with hc | hrel | hlen
      · rw [if_pos hc]
      · by_cases hc : count = 0
        · rw [if_pos hc]
        · rw [if_neg hc, if_pos hrel]
      · by_cases hc : count = 0
        · rw [if_pos hc]
        · rw [if_neg hc]
          by_cases hrel : docs.flatten.filter (fun d =>
              decide (pyStrip d ≠ "" ∧ pyStrip d ≠ "N/A" ∧ pyStrip d ≠ "N/A N/A")) = []
          · rw [if_pos hrel]
          · rw [if_neg hrel, if_pos hlen]

/-! ### C8: route-handler validation before service calls -/

/-- C8: a POST to `/ask-hr` whose JSON body lacks the key `"question"` gets
an HTTP 400 error and never invokes `answer_hr_question`; a POST to
`/analyze-resume` whose body lacks a non-empty `"query"` gets a 400 and never
invokes retrieval or the LLM. -/
theorem c8_route_validation (body : List (String × PyVal)) :
    (pyHasKey body "question" = false → ask_hr_api body = ⟨400, false⟩)
    ∧ (∀ retrieved,
        (pyLookup body "query" = none ∨ pyLookup body "query" = some (.strV "")) →
        analyze_resume_api body retrieved = ⟨400, false, false⟩) := by
  constructor
  · intro h
    simp [ask_hr_api, h]
  · intro retrieved h
    rcases h with h | h <;> simp [analyze_resume_api, h, pyFalsy]

theorem c8_route_validation_witness :
    ask_hr_api [] = ⟨400, false⟩ ∧
    analyze_resume_api [("query", .strV "")] [] = ⟨400, false, false⟩ :=
  ⟨(c8_route_validation []).1 (by decide),
   (c8_route_validation [("query", .strV "")]).2 [] (Or.inr (by simp [pyLookup]))⟩

/-! ### C9: stopword-only queries retrieve nothing -/

/-- C9: if every word of the query (lowercased and tokenized) is a stopword,
`extract_keywords` returns the empty list and `retrieve_relevant_resumes`
returns the empty list whatever the stored resumes and the vector search
produce. -/
theorem c9_stopword_only_query (q : String)
    (h : ∀ w ∈ (wordRuns (pyLower q).data).map (fun l => (⟨l⟩ : String)),
      w ∈ stopwords) :
    extract_keywords q = [] ∧
    ∀ res l, retrieve_relevant_resumes q res = some l → l = [] := by
  have hek : extract_keywords q = [] := by
    unfold extract_keywords
    apply List.filter_eq_nil_iff.mpr
    intro w hw
    simpa using h w hw
  refine ⟨hek, ?_⟩
  intro res l hres
  rcases res with ⟨docs, metas, dists⟩
  rcases docs with _ | ⟨d0, drest⟩
  · simp only [retrieve_relevant_resumes] at hres
    exact (Option.some_injective _ hres).symm
  rcases d0 with _ | ⟨t, dr⟩
  · simp only [retrieve_relevant_resumes] at hres
    exact (Option.some_injective _ hres).symm
  rcases metas with _ | ⟨m0, mrest⟩
  · simp only [retrieve_relevant_resumes] at hres
    exact absurd hres (by simp)
  rcases dists with _ | ⟨s0, srest⟩
  · simp only [retrieve_relevant_resumes] at hres
    exact absurd hres (by simp)
  simp only [retrieve_relevant_resumes, hek] at hres
  rcases halign : alignRows (t :: dr) m0 s0 with _ | rows
  · rw [halign] at hres
    simp at hres
  · rw [halign] at hres
    simp only [Option.map_some', Option.some.injEq, List.any_nil,
      List.filter_false, List.insertionSort] at hres
    exact hres.symm

theorem c9_stopword_only_query_witness :
    (∀ w ∈ (wordRuns (pyLower "find me a developer").data).map
        (fun l => (⟨l⟩ : String)), w ∈ stopwords) ∧
    extract_keywords "find me a developer" = [] :=
  ⟨by decide, (c9_stopword_only_query "find me a developer" (by decide)).1⟩

/-! ### C1: resume retrieval filters by keyword and sorts by distance -/

theorem alignRows_eq_zip (d0 m0 : List String) (s0 : List Int)
    (hm : d0.length ≤ m0.length) (hs : d0.length ≤ s0.length) :
    alignRows d0 m0 s0 =
      some ((d0.zip (m0.zip s0)).map fun p => ⟨p.1, p.2.1, p.2.2⟩) := by
  induction d0 generalizing m0 s0 with
  | nil => simp [alignRows]
  | cons t dr ih =>
    rcases m0 with _ | ⟨m, mr⟩
    · simp at hm
    rcases s0 with _ | ⟨s, sr⟩
    · simp at hs
    simp only [alignRows, List.zip_cons_cons, List.map_cons]
    rw [ih mr sr (by simpa using hm) (by simpa using hs)]
    rfl

/-- C1: on an aligned query result, `retrieve_relevant_resumes` returns
exactly the retrieved documents whose lowercased text contains at least one
extracted keyword, each paired with its metadata and distance score, in
ascending order of distance score. -/
theorem c1_resume_ranking (q : String) (d0 : List String)
    (drest : List (List String)) (m0 : List String) (mrest : List (List String))
    (s0 : List Int) (srest : List (List Int))
    (hm : d0.length ≤ m0.length) (hs : d0.length ≤ s0.length) :
    ∃ out,
      retrieve_relevant_resumes q ⟨d0 :: drest, m0 :: mrest, s0 :: srest⟩ = some out
      ∧ List.Perm out (((d0.zip (m0.zip s0)).map fun p =>
          RetrievedResume.mk p.1 p.2.1 p.2.2).filter fun r =>
            (extract_keywords q).any fun k => pyContains (pyLower r.text) k)
      ∧ List.Sorted (fun a b => a.score ≤ b.score) out := by
  haveI : IsTotal RetrievedResume (fun a b => a.score ≤ b.score) :=
    ⟨fun a b => Int.le_total a.score b.score⟩
  haveI : IsTrans RetrievedResume (fun a b => a.score ≤ b.score) :=
    ⟨fun a b c h1 h2 => Int.le_trans h1 h2⟩
  rcases d0 with _ | ⟨t, dr⟩
  · exact ⟨[], rfl, by simp, List.sorted_nil⟩
  · refine ⟨List.insertionSort (fun a b => a.score ≤ b.score)
      (((((t :: dr)).zip (m0.zip s0)).map fun p =>
          RetrievedResume.mk p.1 p.2.1 p.2.2).filter fun r =>
        (extract_keywords q).any fun k => pyContains (pyLower r.text) k),
      ?_, ?_, ?_⟩
    · simp only [retrieve_relevant_resumes]
      rw [alignRows_eq_zip _ _ _ hm hs]
      rfl
    · exact List.perm_insertionSort _ _
    · exact List.sorted_insertionSort _ _

theorem c1_resume_ranking_witness :
    ∃ out,
      retrieve_relevant_resumes "python developer"
        ⟨[["Python and Go", "Java"]], [["m1", "m2"]], [[7, 3]]⟩ = some out
      ∧ List.Perm out (((["Python and Go", "Java"].zip
          (["m1", "m2"].zip [7, 3])).map fun p =>
          RetrievedResume.mk p.1 p.2.1 p.2.2).filter fun r =>
            (extract_keywords "python developer").any fun k =>
              pyContains (pyLower r.text) k)
      ∧ List.Sorted (fun a b => a.score ≤ b.score) out :=
  c1_resume_ranking "python developer" ["Python and Go", "Java"] []
    ["m1", "m2"] [] [7, 3] [] (by decide) (by decide)

/-! ### C3: Telegram vs WhatsApp reply pipelines -/

/-- C3 counterexample: on the raw result `"*"` the cleaned reply is empty and
the two webhook handlers send different fixed fallback sentences, so the
claimed identical reply text fails. -/
theorem c3_webhook_fallback_divergence :
    tgReplyText "*" = some fbT ∧ waReplyText "*" = some fb1 ∧
    tgReplyText "*" ≠ waReplyText "*" := by
  refine ⟨?_, ?_, ?_⟩ <;> decide

/-- C3 (amended): whenever the common pipeline (same
`process_deepseek_response` extraction, same code-block stripping, same JSON
unwrapping) yields a string with non-empty strip, the Telegram and WhatsApp
handlers produce the identical reply text; they differ only in the fixed
fallback sentence used when the cleaned reply is empty. -/
theorem c3_webhook_reply_equal (raw s : String)
    (h : unwrapAnswer (fenceCleanStep (process_deepseek_response (.strV raw))) =
      .strV s)
    (hne : pyStrip s ≠ "") :
    tgReplyText raw = waReplyText raw ∧ tgReplyText raw = some s := by
  have hs : s ≠ "" := by
    intro h0
    apply hne
    rw [h0]
    rfl
  unfold tgReplyText waReplyText
  rw [h]
  simp [pyFalsy, hs, hne]

theorem c3_webhook_reply_equal_witness :
    unwrapAnswer (fenceCleanStep (process_deepseek_response (.strV "hello"))) =
      .strV "hello" ∧
    tgReplyText "hello" = waReplyText "hello" :=
  ⟨rfl, (c3_webhook_reply_equal "hello" "hello" rfl (by decide)).1⟩

/-! ### C10: Telegram handler status codes -/

/-- C10 counterexample: an update containing a message with a chat id but a
non-string `text` makes `handle_telegram_request` raise before its `try`
(Flask then answers 500), so the claim does not hold for every input with a
message and chat id. -/
theorem c10_nonstring_text :
    (∃ m, pyIndex tgNonStringTextUpdate "message" = some m ∧
      ∃ c, pyIndex m "chat" = some c ∧ (pyIndex c "id").isSome) ∧
    handle_telegram_request tgNonStringTextUpdate ⟨some "x", some 200⟩ = none :=
  ⟨⟨.dictV [("chat", .dictV [("id", .intV 1)]), ("text", .intV 5)], rfl,
    .dictV [("id", .intV 1)], rfl, rfl⟩, rfl⟩

/-- C10 (amended): for every update whose message has a chat id and whose
`text` is absent or a string, the handler returns HTTP 200 — including empty
text, a failed or raising send, and an exception raised while answering or
while post-processing the reply. -/
theorem c10_always_200 (data : PyVal) (env : TgEnv)
    (msg chat : PyVal) (t : String)
    (hm : pyIndex data "message" = some msg)
    (hc : pyIndex msg "chat" = some chat)
    (hid : (pyIndex chat "id").isSome)
    (ht : pyGetD msg "text" (.strV "") = some (.strV t)) :
    ∃ b, handle_telegram_request data env = some (b, 200) := by
  unfold handle_telegram_request
  rcases hi : pyIndex chat "id" with _ | idv
  · rw [hi] at hid
    simp at hid
  simp only [hm, hc, hi, ht]
  by_cases hq : pyStrip t = ""
  · exact ⟨_, by rw [if_pos hq]⟩
  rw [if_neg hq]
  rcases env with ⟨ans, send⟩
  rcases ans with _ | raw <;> dsimp only
  · exact ⟨_, rfl⟩
  rcases hr : tgReplyText raw with _ | reply <;> simp only [hr]
  · exact ⟨_, rfl⟩
  rcases send with _ | code <;> dsimp only
  · exact ⟨_, rfl⟩
  by_cases hcode : code ≠ 200
  · exact ⟨_, by rw [if_pos hcode]⟩
  · exact ⟨_, by rw [if_neg hcode]⟩

theorem c10_always_200_witness :
    ∃ b, handle_telegram_request
      (.dictV [("message", .dictV
        [("chat", .dictV [("id", .intV 1)]), ("text", .strV "hi")])])
      ⟨none, none⟩ = some (b, 200) :=
  c10_always_200 _ _ (.dictV [("chat", .dictV [("id", .intV 1)]), ("text", .strV "hi")])
    (.dictV [("id", .intV 1)]) "hi" rfl rfl (by decide) rfl

/-! ### C2: process_deepseek_response is total with fixed fallbacks -/

theorem allSpace_of_pyStripList_nil {l : List Char} (h : pyStripList l = []) :
    ∀ c ∈ l, pyIsSpace c = true := by
  unfold pyStripList dropEndWhile at h
  have h1 : (l.dropWhile pyIsSpace).reverse.dropWhile pyIsSpace = [] := by
    have := congrArg List.reverse h
    simpa using this
  have h2 : ∀ c ∈ (l.dropWhile pyIsSpace).reverse, pyIsSpace c = true :=
    List.dropWhile_eq_nil_iff.mp h1
  have h3 : ∀ c ∈ l.dropWhile pyIsSpace, pyIsSpace c = true := by
    intro c hc
    exact h2 c (List.mem_reverse.mpr hc)
  intro c hc
  rw [← List.takeWhile_append_dropWhile (p := pyIsSpace) (l := l)] at hc
  rcases List.mem_append.mp hc with hc | hc
  · exact List.mem_takeWhile_imp hc
  · exact h3 c hc

theorem mem_of_pyInfixList {pat l : List Char} (h : pyInfixList pat l = true) :
    ∀ c ∈ pat, c ∈ l := by
  induction l with
  | nil =>
    intro c hc
    simp only [pyInfixList, List.isEmpty_iff] at h
    subst h
    simp at hc
  | cons a r ih =>
    intro c hc
    simp only [pyInfixList, Bool.or_eq_true] at h
    rcases h with h | h
    · obtain ⟨t, ht⟩ := List.isPrefixOf_iff_prefix.mp h
      rw [← ht]
      exact List.mem_append.mpr (Or.inl hc)
    · exact List.mem_cons_of_mem a (ih h c hc)

/-- C2: `process_deepseek_response` is a total function of the response value
(exceptions inside its main `try` are modelled explicitly and never escape):
falsy inputs (None, empty string, empty containers, zeros), the two
empty-answer literals and whitespace-only strings all yield the fixed apology
sentence, and whenever the main `try` raises or falls through — with no
earlier branch returning — the result is the fixed final fallback sentence,
never an error. -/
theorem c2_process_response_total (r : PyVal) :
    (pyFalsy r = true → process_deepseek_response r = fb1)
    ∧ (isEmptyAnswerLit r = true → process_deepseek_response r = fb1)
    ∧ (∀ s, r = .strV s → pyStrip s = "" → process_deepseek_response r = fb1)
    ∧ (pyFalsy r = false → isEmptyAnswerLit r = false → step306 r = none →
        step330 r = none → (processTry r = .raised ∨ processTry r = .fell) →
        process_deepseek_response r = fb2) := by
  refine ⟨?_, ?_, ?_, ?_⟩
  · intro h
    simp [process_deepseek_response, h]
  · intro h
    by_cases hf : pyFalsy r = true
    · simp [process_deepseek_response, hf]
    · simp [process_deepseek_response, hf, h]
  · rintro s rfl hstrip
    by_cases hs : s = ""
    · simp [process_deepseek_response, pyFalsy, hs]
    · have hf : pyFalsy (.strV s) = false := by simp [pyFalsy, hs]
      have hlit : isEmptyAnswerLit (.strV s) = false := by
        simp only [isEmptyAnswerLit, decide_eq_false_iff_not]
        intro heq
        rw [heq] at hstrip
        exact absurd hstrip (by decide)
      have h330 : step330 (.strV s) = none := by
        simp only [step330]
        have hcon : pyContains s "```json" = false := by
          by_contra hcc
          rw [Bool.not_eq_false] at hcc
          have hmem := mem_of_pyInfixList hcc '`' (by decide)
          have := allSpace_of_pyStripList_nil
            (congrArg String.data hstrip) '`' hmem
          exact absurd this (by decide)
        simp [fenceAttempt, hcon]
      have htry : processTry (.strV s) = .ret fb1 := by
        simp [processTry, processStrTry, hstrip]
      simp [process_deepseek_response, hf, hlit, step306, h330, htry]
  · intro hf hlit h306 h330 htry
    rcases htry with htry | htry <;>
      simp [process_deepseek_response, hf, hlit, h306, h330, htry]

theorem c2_process_response_total_witness :
    processTry (.strV "\x7b\"answer\": 5\x7d") = .raised ∧
    process_deepseek_response (.strV "\x7b\"answer\": 5\x7d") = fb2 :=
  ⟨by decide,
   (c2_process_response_total (.strV "\x7b\"answer\": 5\x7d")).2.2.2
     (by decide) (by decide) (by decide) (by decide) (Or.inl (by decide))⟩

/-! ### C6: asterisk removal -/

theorem star_free_replaceGo :
    ∀ (fuel : Nat) (l : List Char), l.length ≤ fuel →
      '*' ∉ pyReplaceGo ['*'] [] fuel l := by
  intro fuel
  induction fuel with
  | zero =>
    intro l hl
    have : l = [] := List.length_eq_zero.mp (Nat.le_zero.mp hl)
    subst this
    simp [pyReplaceGo]
  | succ fuel ih =>
    intro l hl
    rcases l with _ | ⟨c, r⟩
    · simp [pyReplaceGo]
    · by_cases hc : c = '*'
      · subst hc
        have hpre : (['*'] ≠ [] ∧ ['*'].isPrefixOf ('*' :: r) = true) := by
          constructor
          · simp
          · simp [List.isPrefixOf]
        simp only [pyReplaceGo, if_pos hpre, List.nil_append, List.drop_succ_cons,
          List.drop_zero]
        exact ih r (Nat.le_of_succ_le_succ hl)
      · have hpre : ¬ (['*'] ≠ [] ∧ ['*'].isPrefixOf (c :: r) = true) := by
          intro hcon
          apply hc
          have h2 := hcon.2
          simp [List.isPrefixOf] at h2
          exact h2.symm
        simp only [pyReplaceGo, if_neg hpre, List.mem_cons]
        rintro (rfl | hmem)
        · exact hc rfl
        · exact ih r (Nat.le_of_succ_le_succ hl) hmem

theorem star_free_replace (s : String) : '*' ∉ (pyReplace s "*" "").data :=
  star_free_replaceGo s.data.length s.data (Nat.le_refl _)

theorem mem_of_mem_pyStripList {a : Char} {l : List Char}
    (h : a ∈ pyStripList l) : a ∈ l := by
  unfold pyStripList dropEndWhile at h
  rw [List.mem_reverse] at h
  have h1 := (List.dropWhile_sublist _).subset h
  rw [List.mem_reverse] at h1
  exact (List.dropWhile_sublist _).subset h1

theorem noStar_cleanAns (a : String) : '*' ∉ (cleanAns a).data := by
  intro hmem
  exact star_free_replace a (mem_of_mem_pyStripList hmem)

theorem noStar_strReprClean (v : PyVal) : '*' ∉ (strReprClean v).data :=
  noStar_cleanAns _

theorem noStar_fenceAnswer {a : String} {out : String}
    (h : fenceAnswer a = some out) : '*' ∉ out.data := by
  unfold fenceAnswer at h
  repeat' split at h
  all_goals try simp at h
  all_goals subst h
  all_goals exact noStar_cleanAns _

theorem noStar_fenceAttempt {a : String} {out : String}
    (h : fenceAttempt a = some out) : '*' ∉ out.data := by
  unfold fenceAttempt at h
  split at h
  · exact noStar_fenceAnswer h
  · exact absurd h (by simp)

theorem noStar_dictStrTail (a : String) : '*' ∉ (dictStrTail a).data := by
  unfold dictStrTail
  repeat' split
  all_goals exact noStar_cleanAns _

theorem noStar_stepA {rd : PyVal} {out : String}
    (h : stepA rd = some (.ret out)) : '*' ∉ out.data := by
  unfold stepA at h
  repeat' split at h
  all_goals try simp at h
  all_goals try subst h
  all_goals first
    | exact noStar_cleanAns _
    | decide

theorem noStar_answerBlock {rd ac : PyVal} {out : String}
    (h : answerBlock rd ac = .ret out) : '*' ∉ out.data := by
  unfold answerBlock at h
  repeat' split at h
  all_goals try simp at h
  all_goals try subst h
  all_goals first
    | exact noStar_cleanAns _
    | exact noStar_strReprClean _
    | exact noStar_fenceAttempt (by assumption)
    | decide

theorem noStar_stepB {rd : PyVal} {out : String}
    (h : stepB rd = .ret out) : '*' ∉ out.data := by
  unfold stepB at h
  repeat' split at h
  all_goals try simp at h
  all_goals try subst h
  all_goals first
    | exact noStar_strReprClean _
    | exact noStar_answerBlock (by assumption)

theorem noStar_processStrInner {s : String} {out : String}
    (h : processStrInner s = .ret out) : '*' ∉ out.data := by
  unfold processStrInner at h
  split at h
  · simp at h
  · split at h
    · split at h
      · next out2 heq =>
        subst h
        exact noStar_stepA heq
      · exact noStar_stepB h
    · exact noStar_stepB h

theorem noStar_processStrTry {s : String} {out : String}
    (h : processStrTry s = .ret out) : '*' ∉ out.data := by
  unfold processStrTry at h
  split at h
  · simp only [TryOut.ret.injEq] at h
    subst h
    decide
  · split at h
    · next v heq =>
      simp only [TryOut.ret.injEq] at h
      subst h
      exact noStar_processStrInner heq
    · simp at h
    · simp only [TryOut.ret.injEq] at h
      subst h
      exact star_free_replace _

theorem noStar_processDictPath {m : List (String × PyVal)}
    (hnest : ∀ m2, pyLookup m "answer" ≠ some (.dictV m2)) :
    '*' ∉ (processDictPath m).data := by
  unfold processDictPath
  repeat' split
  all_goals first
    | exact noStar_strReprClean _
    | exact noStar_dictStrTail _
    | exact noStar_fenceAttempt (by assumption)
    | exact absurd (by assumption) (hnest _)

/-- C6 (amended): every extraction path of `process_deepseek_response`
removes all asterisks — except the nested path where a dict response has a
dict-valued `"answer"`, on which only doubled asterisks are removed.  For
every response not of that shape the returned string contains no `*`. -/
theorem c6_no_asterisk (r : PyVal) (h : answerNestedDict r = false) :
    '*' ∉ (process_deepseek_response r).data := by
  unfold process_deepseek_response
  split
  · decide
  · split
    · decide
    · split
      · next out heq =>
        unfold step306 at heq
        repeat' split at heq
        all_goals try simp at heq
        subst heq
        exact noStar_cleanAns _
      · split
        · next out heq =>
          unfold step330 at heq
          split at heq
          · exact noStar_fenceAttempt heq
          · exact absurd heq (by simp)
        · split
          · next out heq =>
            unfold processTry at heq
            split at heq
            · simp at heq
              subst heq
              apply noStar_processDictPath
              intro m2 hcon
              simp [answerNestedDict, hcon] at h
            · exact noStar_processStrTry heq
            · simp at heq
          · decide
          · decide

theorem c6_no_asterisk_witness :
    answerNestedDict (.strV "see *this* and **that**") = false ∧
    '*' ∉ (process_deepseek_response (.strV "see *this* and **that**")).data :=
  ⟨by decide, c6_no_asterisk (.strV "see *this* and **that**") (by decide)⟩

/-- C6 counterexample: a dict response whose `"answer"` is a dict with a
string answer keeps single asterisks (line 391 removes only `"**"`), so the
output can contain `*`. -/
theorem c6_star_counterexample :
    process_deepseek_response
      (.dictV [("answer", .dictV [("answer", .strV "*")])]) = "*" ∧
    '*' ∈ ("*" : String).data := by
  refine ⟨?_, by decide⟩
  decide

/-! ### C5 phase 1: loads ∘ dumps roundtrip -/

theorem hexDigitChar_spec : ∀ n < 16,
    pyIsHex (hexDigitChar n) = true ∧ hexVal (hexDigitChar n) = n ∧
    hexDigitChar n ≠ '"' ∧ hexDigitChar n ≠ '\\' := by decide

theorem parseJStr_quote (r : List Char) : parseJStr ('"' :: r) = some ([], r) := by
  rw [parseJStr.eq_def]
  simp

theorem parseJStr_esc (e d : Char) (r : List Char)
    (hd : decodeEsc e = some d) (hu : e ≠ 'u') :
    parseJStr ('\\' :: e :: r) = (parseJStr r).map fun p => (d :: p.1, p.2) := by
  rw [parseJStr.eq_def]
  simp [hd, hu]

theorem parseJStr_uesc (h1 h2 h3 h4 : Char) (r : List Char)
    (hh : (pyIsHex h1 && pyIsHex h2 && pyIsHex h3 && pyIsHex h4) = true) :
    parseJStr ('\\' :: 'u' :: h1 :: h2 :: h3 :: h4 :: r) =
      (parseJStr r).map fun p =>
        (Char.ofNat (((hexVal h1 * 16 + hexVal h2) * 16 + hexVal h3) * 16
          + hexVal h4) :: p.1, p.2) := by
  rw [parseJStr.eq_def]
  simp [hh]

theorem parseJStr_plain (c : Char) (r : List Char)
    (hq : c ≠ '"') (hb : c ≠ '\\') (hc : ¬ c.toNat < 0x20) :
    parseJStr (c :: r) = (parseJStr r).map fun p => (c :: p.1, p.2) := by
  rw [parseJStr.eq_def]
  simp [hq, hb, hc]

theorem parseJStr_escList (l rest : List Char) :
    parseJStr (escList l ++ '"' :: rest) = some (l, rest) := by
  induction l with
  | nil =>
    show parseJStr ('"' :: rest) = some ([], rest)
    exact parseJStr_quote rest
  | cons c t ih =>
    have hesc : escList (c :: t) = escChar c ++ escList t := by
      simp [escList]
    rw [hesc, List.append_assoc]
    by_cases h1 : c = '"'
    · subst h1
      rw [(by decide : escChar '"' = ['\\', '"'])]
      simp only [List.cons_append, List.nil_append]
      rw [parseJStr_esc '"' '"' _ (by decide) (by decide), ih]
      rfl
    by_cases h2 : c = '\\'
    · subst h2
      rw [(by decide : escChar '\\' = ['\\', '\\'])]
      simp only [List.cons_append, List.nil_append]
      rw [parseJStr_esc '\\' '\\' _ (by decide) (by decide), ih]
      rfl
    by_cases h3 : c = '\n'
    · subst h3
      rw [(by decide : escChar '\n' = ['\\', 'n'])]
      simp only [List.cons_append, List.nil_append]
      rw [parseJStr_esc 'n' '\n' _ (by decide) (by decide), ih]
      rfl
    by_cases h4 : c = '\t'
    · subst h4
      rw [(by decide : escChar '\t' = ['\\', 't'])]
      simp only [List.cons_append, List.nil_append]
      rw [parseJStr_esc 't' '\t' _ (by decide) (by decide), ih]
      rfl
    by_cases h5 : c = '\r'
    · subst h5
      rw [(by decide : escChar '\r' = ['\\', 'r'])]
      simp only [List.cons_append, List.nil_append]
      rw [parseJStr_esc 'r' '\r' _ (by decide) (by decide), ih]
      rfl
    by_cases h6 : c = '\x08'
    · subst h6
      rw [(by decide : escChar '\x08' = ['\\', 'b'])]
      simp only [List.cons_append, List.nil_append]
      rw [parseJStr_esc 'b' '\x08' _ (by decide) (by decide), ih]
      rfl
    by_cases h7 : c = '\x0c'
    · subst h7
      rw [(by decide : escChar '\x0c' = ['\\', 'f'])]
      simp only [List.cons_append, List.nil_append]
      rw [parseJStr_esc 'f' '\x0c' _ (by decide) (by decide), ih]
      rfl
    by_cases h8 : c.toNat < 0x20
    · have hdiv : c.toNat / 16 < 16 := by omega
      have hmod : c.toNat % 16 < 16 := Nat.mod_lt _ (by omega)
      obtain ⟨hh1, hv1, -, -⟩ := hexDigitChar_spec _ hdiv
      obtain ⟨hh2, hv2, -, -⟩ := hexDigitChar_spec _ hmod
      have hesc2 : escChar c =
          ['\\', 'u', '0', '0', hexDigitChar (c.toNat / 16),
           hexDigitChar (c.toNat % 16)] := by
        unfold escChar
        rw [if_neg h1, if_neg h2, if_neg h3, if_neg h4, if_neg h5, if_neg h6,
          if_neg h7, if_pos h8]
      rw [hesc2]
      simp only [List.cons_append, List.nil_append]
      rw [parseJStr_uesc _ _ _ _ _ (by simp [hh1, hh2]; decide), ih]
      simp only [Option.map_some']
      congr 2
      rw [(by decide : hexVal '0' = 0), hv1, hv2]
      have hval : ((0 * 16 + 0) * 16 + c.toNat / 16) * 16 + c.toNat % 16
          = c.toNat := by omega
      rw [hval, Char.ofNat_toNat]
    · have hesc2 : escChar c = [c] := by
        unfold escChar
        rw [if_neg h1, if_neg h2, if_neg h3, if_neg h4, if_neg h5, if_neg h6,
          if_neg h7, if_neg h8]
      rw [hesc2]
      simp only [List.cons_append, List.nil_append]
      rw [parseJStr_plain c _ h1 h2 h8, ih]
      rfl

theorem parseJVal_str_dumps (c : String) (a : Nat) :
    parseJVal (Nat.succ a) (' ' :: '"' :: (escList c.data ++ ['"', '\x7d'])) =
      some (.strV c, ['\x7d']) := by
  rw [parseJVal.eq_def]
  dsimp only
  simp only [skipWs, List.dropWhile_cons, jsonWs, Char.reduceEq, decide_eq_true_eq,
    decide_False, decide_True, Bool.or_self, Bool.or_true, Bool.or_false,
    Bool.false_or, Bool.false_eq_true, if_false, if_true]
  rw [parseJStr_escList c.data ['\x7d']]
  rfl

theorem parseJMembers_dumps (c : String) (a : Nat) :
    parseJMembers (Nat.succ (Nat.succ a))
      ('"' :: 'a' :: 'n' :: 's' :: 'w' :: 'e' :: 'r' :: '"' :: ':' :: ' ' :: '"' ::
        (escList c.data ++ ['"', '\x7d'])) [] =
      some (.dictV [("answer", .strV c)], []) := by
  have hkey : parseJStr
      ('a' :: 'n' :: 's' :: 'w' :: 'e' :: 'r' :: '"' :: ':' :: ' ' :: '"' ::
        (escList c.data ++ ['"', '\x7d'])) =
      some ("answer".data,
        ':' :: ' ' :: '"' :: (escList c.data ++ ['"', '\x7d'])) :=
    parseJStr_escList "answer".data _
  rw [parseJMembers.eq_def]
  dsimp only
  simp only [Char.reduceEq, decide_eq_true_eq, decide_False, decide_True, if_false,
    if_true]
  rw [hkey]
  simp only [skipWs, List.dropWhile_cons, jsonWs, Char.reduceEq, decide_eq_true_eq,
    decide_False, decide_True, Bool.or_self, Bool.or_true, Bool.or_false,
    Bool.false_or, Bool.false_eq_true, if_false, if_true]
  rw [show (a + 1 : Nat) = Nat.succ a from rfl, parseJVal_str_dumps c a]
  rfl

theorem parseJVal_dumps (c : String) (a : Nat) :
    parseJVal (Nat.succ (Nat.succ (Nat.succ a))) (pyJsonDumpsAnswer c).data =
      some (.dictV [("answer", .strV c)], []) := by
  show parseJVal _
      ('\x7b' :: '"' :: 'a' :: 'n' :: 's' :: 'w' :: 'e' :: 'r' :: '"' :: ':' ::
        ' ' :: '"' :: (escList c.data ++ ['"', '\x7d'])) = _
  rw [parseJVal.eq_def]
  dsimp only
  simp only [skipWs, List.dropWhile_cons, jsonWs, Char.reduceEq, decide_eq_true_eq,
    decide_False, decide_True, Bool.or_self, Bool.or_true, Bool.or_false,
    Bool.false_or, Bool.false_eq_true, if_false, if_true]
  exact parseJMembers_dumps c a

theorem pyJsonLoads_dumpsAnswer (c : String) :
    pyJsonLoads (pyJsonDumpsAnswer c) = some (.dictV [("answer", .strV c)]) := by
  unfold pyJsonLoads
  have hlen : (pyJsonDumpsAnswer c).data.length + 1 =
      Nat.succ (Nat.succ (Nat.succ ((escList c.data).length + 12))) := by
    show (("\x7b\"answer\": \"".data ++ (escList c.data ++ "\"\x7d".data)).length + 1) = _
    simp [List.length_append]
  rw [hlen, parseJVal_dumps]
  simp [skipWs]

/-! ### C5: the wrap/unwrap round trip (query_deepseek line 75 and
process_deepseek_response lines 398-487) -/

theorem escChar_ne_nil (c : Char) : escChar c ≠ [] := by
  unfold escChar
  repeat' split
  all_goals simp

theorem escList_eq_nil {l : List Char} (h : escList l = []) : l = [] := by
  cases l with
  | nil => rfl
  | cons c t =>
    exfalso
    have h2 : escChar c ++ escList t = [] := by simpa [escList] using h
    exact escChar_ne_nil c (List.append_eq_nil.mp h2).1

theorem dumpsAnswer_data (c : String) :
    (pyJsonDumpsAnswer c).data =
      '\x7b' :: '"' :: 'a' :: 'n' :: 's' :: 'w' :: 'e' :: 'r' :: '"' :: ':' ::
        ' ' :: '"' :: (escList c.data ++ ['"', '\x7d']) := rfl

theorem pyStrip_dumpsAnswer (c : String) :
    pyStrip (pyJsonDumpsAnswer c) = pyJsonDumpsAnswer c := by
  show (⟨pyStripList (pyJsonDumpsAnswer c).data⟩ : String) = _
  have hsh : (pyJsonDumpsAnswer c).data =
      '\x7b' :: (('"' :: 'a' :: 'n' :: 's' :: 'w' :: 'e' :: 'r' :: '"' :: ':' ::
        ' ' :: '"' :: (escList c.data ++ ['"'])) ++ ['\x7d']) := by
    rw [dumpsAnswer_data]
    simp
  rw [hsh]
  unfold pyStripList
  rw [List.dropWhile_cons, if_neg (by decide)]
  unfold dropEndWhile
  rw [List.reverse_cons, List.reverse_append]
  simp only [List.cons_append, List.nil_append, List.append_assoc,
    List.reverse_cons, List.reverse_nil]
  rw [List.dropWhile_cons, if_neg (by decide)]
  simp only [List.reverse_cons, List.reverse_append, List.reverse_nil,
    List.reverse_reverse, List.cons_append, List.nil_append, List.append_assoc]
  exact congrArg String.mk (dumpsAnswer_data c).symm

theorem stB_append (u v : List Char) : ∀ b, stB b (u ++ v) = stB (stB b u) v := by
  induction u with
  | nil => intro b; rfl
  | cons c r ih => intro b; simp only [List.cons_append, stB]; exact ih _

theorem cqB_append (u v : List Char) :
    ∀ b, cqB b (u ++ v) = cqB b u + cqB (stB b u) v := by
  induction u with
  | nil => intro b; simp [cqB, stB]
  | cons c r ih =>
    intro b
    simp only [List.cons_append, cqB, stB, List.append_eq]
    rw [ih]
    omega

theorem cqB_cons_clean {c : Char} (hq : c ≠ '"') (hb : c ≠ '\\') (b : Bool)
    (r : List Char) : cqB b (c :: r) = cqB false r := by
  simp [cqB, hq, hb]

theorem cqB_cons_bs (b : Bool) (r : List Char) :
    cqB b ('\\' :: r) = cqB true r := by
  simp [cqB]

theorem cqB_dropWhile (p : Char → Bool)
    (hp : ∀ c, p c = true → c ≠ '"' ∧ c ≠ '\\') :
    ∀ l, cqB false (l.dropWhile p) = cqB false l := by
  intro l
  induction l with
  | nil => rfl
  | cons c r ih =>
    rw [List.dropWhile_cons]
    by_cases hc : p c = true
    · rw [if_pos hc, ih, cqB_cons_clean (hp c hc).1 (hp c hc).2]
    · rw [if_neg hc]

theorem jsonWs_clean (c : Char) (h : jsonWs c = true) : c ≠ '"' ∧ c ≠ '\\' := by
  simp only [jsonWs, Bool.or_eq_true, decide_eq_true_eq] at h
  rcases h with ((h | h) | h) | h <;> subst h <;> exact ⟨by decide, by decide⟩

theorem cqB_skipWs (l : List Char) : cqB false (skipWs l) = cqB false l :=
  cqB_dropWhile jsonWs jsonWs_clean l

theorem stB_noBS {m : List Char} (h : ∀ c ∈ m, c ≠ '\\') :
    stB false m = false := by
  induction m with
  | nil => rfl
  | cons c r ih =>
    show stB (decide (c = '\\')) r = false
    rw [decide_eq_false (h c (by simp))]
    exact ih fun x hx => h x (by simp [hx])

theorem stB_fence (b : Bool) : stB b ("```json".data) = false := rfl

theorem cqB_escChar (c : Char) (b : Bool) : cqB b (escChar c) = 0 := by
  unfold escChar
  repeat' split
  all_goals try (simp [cqB]; done)
  · rename_i h8
    have hdiv : c.toNat / 16 < 16 := by omega
    have hmod : c.toNat % 16 < 16 := Nat.mod_lt _ (by omega)
    obtain ⟨-, -, hq1, hb1⟩ := hexDigitChar_spec _ hdiv
    obtain ⟨-, -, hq2, hb2⟩ := hexDigitChar_spec _ hmod
    simp [cqB, hq1, hb1, hq2, hb2]
  · rename_i h1 h2 h3 h4 h5 h6 h7 h8
    simp [cqB, h1, h2]

theorem cqB_escList (l : List Char) : ∀ b, cqB b (escList l) = 0 := by
  induction l with
  | nil => intro b; rfl
  | cons c t ih =>
    intro b
    have h : escList (c :: t) = escChar c ++ escList t := by simp [escList]
    rw [h, cqB_append, cqB_escChar, ih]

theorem cqB_wrap (c : String) :
    cqB false (escList c.data ++ ['"', '\x7d']) ≤ 1 := by
  rw [cqB_append, cqB_escList]
  rcases stB false (escList c.data) <;> simp [cqB]

theorem cqB_mid_le {u t v full : List Char} (hu : stB false u = false)
    (hfull : full = u ++ t ++ v) : cqB false t ≤ cqB false full := by
  subst hfull
  rw [List.append_assoc, cqB_append, hu, cqB_append]
  omega

theorem pyIsHex_clean {c : Char} (h : pyIsHex c = true) : c ≠ '"' ∧ c ≠ '\\' := by
  constructor <;> rintro rfl <;> exact absurd h (by decide)

theorem cqB_quote_cons (b : Bool) (r : List Char) :
    cqB b ('"' :: r) = (if b = false then 1 else 0) + cqB false r := by
  simp [cqB]

theorem cqB_parseJStr_go : ∀ (n : Nat) (l : List Char), l.length ≤ n →
    ∀ p rest, parseJStr l = some (p, rest) → ∀ b, cqB false rest ≤ cqB b l := by
  intro n
  induction n with
  | zero =>
    intro l hl p rest h b
    have : l = [] := List.eq_nil_of_length_eq_zero (Nat.le_zero.mp hl)
    subst this
    rw [parseJStr.eq_def] at h
    simp at h
  | succ n ih =>
    intro l hl p rest h b
    match l with
    | [] =>
      rw [parseJStr.eq_def] at h
      simp at h
    | c :: r =>
      by_cases hq : c = '"'
      · subst hq
        rw [parseJStr_quote] at h
        simp only [Option.some.injEq, Prod.mk.injEq] at h
        obtain ⟨hp, hrest⟩ := h
        subst hrest
        rw [cqB_quote_cons]
        split <;> omega
      by_cases hb : c = '\\'
      · subst hb
        match r with
        | [] =>
          rw [parseJStr.eq_def] at h
          simp at h
        | e :: r2 =>
          by_cases hu : e = 'u'
          · subst hu
            match r2 with
            | [] => rw [parseJStr.eq_def] at h; simp at h
            | [h1] => rw [parseJStr.eq_def] at h; simp at h
            | [h1, h2] => rw [parseJStr.eq_def] at h; simp at h
            | [h1, h2, h3] => rw [parseJStr.eq_def] at h; simp at h
            | h1 :: h2 :: h3 :: h4 :: r3 =>
              by_cases hhex :
                  (pyIsHex h1 && pyIsHex h2 && pyIsHex h3 && pyIsHex h4) = true
              · rw [parseJStr_uesc h1 h2 h3 h4 r3 hhex] at h
                rcases hsub : parseJStr r3 with _ | ⟨p3, rest3⟩
                · rw [hsub] at h; simp at h
                · rw [hsub] at h
                  simp only [Option.map_some', Option.some.injEq,
                    Prod.mk.injEq] at h
                  obtain ⟨-, hrest⟩ := h
                  subst hrest
                  obtain ⟨⟨⟨hx1, hx2⟩, hx3⟩, hx4⟩ :
                      ((pyIsHex h1 = true ∧ pyIsHex h2 = true) ∧
                      pyIsHex h3 = true) ∧ pyIsHex h4 = true := by
                    simpa [Bool.and_eq_true] using hhex
                  have hlen : r3.length ≤ n := by
                    simp only [List.length_cons] at hl
                    omega
                  have hrec := ih r3 hlen _ _ hsub false
                  rw [cqB_cons_bs,
                    cqB_cons_clean (by decide) (by decide),
                    cqB_cons_clean (pyIsHex_clean hx1).1 (pyIsHex_clean hx1).2,
                    cqB_cons_clean (pyIsHex_clean hx2).1 (pyIsHex_clean hx2).2,
                    cqB_cons_clean (pyIsHex_clean hx3).1 (pyIsHex_clean hx3).2,
                    cqB_cons_clean (pyIsHex_clean hx4).1 (pyIsHex_clean hx4).2]
                  exact hrec
              · rw [parseJStr.eq_def] at h
                simp [hhex] at h
          · rcases hd : decodeEsc e with _ | d
            · rw [parseJStr.eq_def] at h
              simp [hu, hd] at h
            · rw [parseJStr_esc e d r2 hd hu] at h
              rcases hsub : parseJStr r2 with _ | ⟨p2, rest2⟩
              · rw [hsub] at h; simp at h
              · rw [hsub] at h
                simp only [Option.map_some', Option.some.injEq,
                  Prod.mk.injEq] at h
                obtain ⟨-, hrest⟩ := h
                subst hrest
                have hlen : r2.length ≤ n := by
                  simp only [List.length_cons] at hl
                  omega
                have hrec := ih r2 hlen _ _ hsub (decide (e = '\\'))
                have hstep : cqB b ('\\' :: e :: r2) =
                    cqB (decide (e = '\\')) r2 := by
                  simp [cqB]
                rw [hstep]
                exact hrec
      · by_cases hc : c.toNat < 0x20
        · rw [parseJStr.eq_def] at h
          simp [hq, hb, hc] at h
        · rw [parseJStr_plain c r hq hb hc] at h
          rcases hsub : parseJStr r with _ | ⟨p2, rest2⟩
          · rw [hsub] at h; simp at h
          · rw [hsub] at h
            simp only [Option.map_some', Option.some.injEq, Prod.mk.injEq] at h
            obtain ⟨-, hrest⟩ := h
            subst hrest
            have hlen : r.length ≤ n := by
              simp only [List.length_cons] at hl
              omega
            rw [cqB_cons_clean hq hb]
            exact ih r hlen _ _ hsub false

theorem cqB_parseJStr {l p rest : List Char} (h : parseJStr l = some (p, rest))
    (b : Bool) : cqB false rest ≤ cqB b l :=
  cqB_parseJStr_go l.length l (Nat.le_refl _) p rest h b

theorem digit_clean {c : Char} (h : c.isDigit = true) : c ≠ '"' ∧ c ≠ '\\' := by
  constructor <;> rintro rfl <;> exact absurd h (by decide)

theorem cqB_dropDigits (l : List Char) :
    cqB false (l.dropWhile Char.isDigit) = cqB false l :=
  cqB_dropWhile _ (fun _ h => digit_clean h) l

theorem cqB_expSign (l : List Char) : cqB false (expSign l).2 ≤ cqB false l := by
  unfold expSign
  split
  · dsimp only
    rw [cqB_cons_clean (by decide) (by decide)]
  · dsimp only
    rw [cqB_cons_clean (by decide) (by decide)]
  · dsimp only
    exact Nat.le_refl _

theorem cqB_numSign (l : List Char) : cqB false (numSign l).2 ≤ cqB false l := by
  unfold numSign
  split
  · dsimp only
    rw [cqB_cons_clean (by decide) (by decide)]
  · dsimp only
    exact Nat.le_refl _

theorem cqB_fracPart (m : List Char) : cqB false (fracPart m).2 ≤ cqB false m := by
  unfold fracPart
  split
  · dsimp only
    rw [cqB_dropDigits, cqB_cons_clean (by decide) (by decide)]
  · dsimp only
    exact Nat.le_refl _

theorem cqB_parseExpPart {l : List Char} {e : Int} {rest : List Char}
    (h : parseExpPart l = some (e, rest)) : cqB false rest ≤ cqB false l := by
  unfold parseExpPart at h
  split at h
  rename_i neg l1 heq
  have hl1 : cqB false l1 ≤ cqB false l := by
    have hs := cqB_expSign l
    rw [heq] at hs
    exact hs
  dsimp only at h
  by_cases hds : List.takeWhile Char.isDigit l1 = []
  · rw [if_pos hds] at h
    simp at h
  · rw [if_neg hds] at h
    simp only [Option.some.injEq, Prod.mk.injEq] at h
    obtain ⟨-, hrest⟩ := h
    subst hrest
    rw [cqB_dropDigits]
    exact hl1

theorem parseJNum_facts {l : List Char} {v : PyVal} {rest : List Char}
    (h : parseJNum l = some (v, rest)) :
    cqB false rest ≤ cqB false l ∧
      ((∃ n, v = .intV n) ∨ (∃ q, v = .floatV q)) := by
  unfold parseJNum at h
  split at h
  rename_i neg l1 heq
  have hl1 : cqB false l1 ≤ cqB false l := by
    have hs := cqB_numSign l
    rw [heq] at hs
    exact hs
  dsimp only at h
  by_cases hip : List.takeWhile Char.isDigit l1 = []
  · rw [if_pos hip] at h
    simp at h
  rw [if_neg hip] at h
  by_cases hz : 1 < (List.takeWhile Char.isDigit l1).length ∧
      (List.takeWhile Char.isDigit l1).headD '1' = '0'
  · rw [if_pos hz] at h
    simp at h
  rw [if_neg hz] at h
  have hr2 : cqB false (fracPart (List.dropWhile Char.isDigit l1)).2 ≤
      cqB false l1 := by
    have h2 := cqB_fracPart (List.dropWhile Char.isDigit l1)
    rw [cqB_dropDigits] at h2
    exact h2
  by_cases hfr : List.dropWhile Char.isDigit l1 ≠
        (fracPart (List.dropWhile Char.isDigit l1)).2 ∧
      (fracPart (List.dropWhile Char.isDigit l1)).1 = []
  · rw [if_pos hfr] at h
    simp at h
  rw [if_neg hfr] at h
  split at h
  · rename_i r3 hc
    rcases hexp : parseExpPart r3 with _ | ⟨p1, p2⟩
    · rw [hexp] at h
      simp at h
    · rw [hexp] at h
      simp only [Option.map_some', Option.some.injEq, Prod.mk.injEq] at h
      obtain ⟨hv, hrest⟩ := h
      subst hrest
      refine ⟨?_, Or.inr ⟨_, hv.symm⟩⟩
      have hm := cqB_parseExpPart hexp
      have he : cqB false ('e' :: r3) = cqB false r3 :=
        cqB_cons_clean (by decide) (by decide) _ _
      rw [hc] at hr2
      omega
  · rename_i r3 hc
    rcases hexp : parseExpPart r3 with _ | ⟨p1, p2⟩
    · rw [hexp] at h
      simp at h
    · rw [hexp] at h
      simp only [Option.map_some', Option.some.injEq, Prod.mk.injEq] at h
      obtain ⟨hv, hrest⟩ := h
      subst hrest
      refine ⟨?_, Or.inr ⟨_, hv.symm⟩⟩
      have hm := cqB_parseExpPart hexp
      have he : cqB false ('E' :: r3) = cqB false r3 :=
        cqB_cons_clean (by decide) (by decide) _ _
      rw [hc] at hr2
      omega
  · by_cases hhf : List.dropWhile Char.isDigit l1 ≠
        (fracPart (List.dropWhile Char.isDigit l1)).2
    · rw [if_pos hhf] at h
      simp only [Option.some.injEq, Prod.mk.injEq] at h
      obtain ⟨hv, hrest⟩ := h
      subst hrest
      exact ⟨by omega, Or.inr ⟨_, hv.symm⟩⟩
    · rw [if_neg hhf] at h
      simp only [Option.some.injEq, Prod.mk.injEq] at h
      obtain ⟨hv, hrest⟩ := h
      subst hrest
      exact ⟨by omega, Or.inl ⟨_, hv.symm⟩⟩

theorem cqB_noQ {u : List Char} (h : ∀ x ∈ u, x ≠ '"') : ∀ b, cqB b u = 0 := by
  induction u with
  | nil => intro b; rfl
  | cons c r ih =>
    intro b
    show (if c = '"' ∧ b = false then 1 else 0) + cqB (decide (c = '\\')) r = 0
    rw [if_neg (fun hc => (h c (by simp)) hc.1), ih fun x hx => h x (by simp [hx])]

theorem cqB_append_clean {u : List Char}
    (h : ∀ x ∈ u, x ≠ '"' ∧ x ≠ '\\') (t : List Char) :
    cqB false (u ++ t) = cqB false t := by
  rw [cqB_append, cqB_noQ (fun c hc => (h c hc).1),
    stB_noBS (fun c hc => (h c hc).2)]
  omega

theorem isPrefixOf_ex : ∀ {u l : List Char}, u.isPrefixOf l = true →
    ∃ t, l = u ++ t := by
  intro u
  induction u with
  | nil => intro l _; exact ⟨l, rfl⟩
  | cons a u' ih =>
    intro l h
    match l with
    | [] => simp [List.isPrefixOf] at h
    | b :: l' =>
      rw [List.isPrefixOf, Bool.and_eq_true, beq_iff_eq] at h
      obtain ⟨hab, h2⟩ := h
      obtain ⟨t, ht⟩ := ih h2
      exact ⟨t, by rw [ht, hab]; rfl⟩

theorem isPrefixOf_append : ∀ (u v : List Char), u.isPrefixOf (u ++ v) = true := by
  intro u v
  induction u with
  | nil => simp [List.isPrefixOf]
  | cons a u' ih => simp [List.isPrefixOf, ih]

theorem cqB_lit_drop {lit : List Char} {c : Char} {r' : List Char} (n : Nat)
    (hn : lit.length = n)
    (hlit : ∀ x ∈ lit, x ≠ '"' ∧ x ≠ '\\')
    (ht : lit.isPrefixOf (c :: r') = true) :
    cqB false ((c :: r').drop n) ≤ cqB false (c :: r') := by
  subst hn
  obtain ⟨t, hteq⟩ := isPrefixOf_ex ht
  rw [hteq, List.drop_left, cqB_append_clean hlit]

theorem cqB_parse_mono : ∀ fuel : Nat,
    (∀ l v r, parseJVal fuel l = some (v, r) → cqB false r ≤ cqB false l) ∧
    (∀ l acc v r, parseJMembers fuel l acc = some (v, r) →
      cqB false r ≤ cqB false l) ∧
    (∀ l acc v r, parseJItems fuel l acc = some (v, r) →
      cqB false r ≤ cqB false l) := by
  intro fuel
  induction fuel with
  | zero =>
    refine ⟨fun l v r h => ?_, fun l acc v r h => ?_, fun l acc v r h => ?_⟩
    · rw [parseJVal.eq_def] at h; simp at h
    · rw [parseJMembers.eq_def] at h; simp at h
    · rw [parseJItems.eq_def] at h; simp at h
  | succ n ih =>
    obtain ⟨ihv, ihm, ihi⟩ := ih
    refine ⟨fun l v r h => ?_, fun l acc v r h => ?_, fun l acc v r h => ?_⟩
    · -- parseJVal
      rw [parseJVal.eq_def] at h
      dsimp only at h
      split at h
      · simp at h
      rename_i c r' hsk
      have hskip : cqB false (c :: r') = cqB false l := by
        rw [← hsk]; exact cqB_skipWs l
      by_cases hc : c = '{'
      · rw [if_pos hc] at h
        subst hc
        have hbrace : cqB false ('{' :: r') = cqB false r' :=
          cqB_cons_clean (by decide) (by decide) _ _
        split at h
        · rename_i r2 hsk2
          simp only [Option.some.injEq, Prod.mk.injEq] at h
          obtain ⟨-, hr⟩ := h
          subst hr
          have h1 : cqB false ('}' :: r2) = cqB false r' := by
            rw [← hsk2]; exact cqB_skipWs r'
          have h2 : cqB false ('}' :: r2) = cqB false r2 :=
            cqB_cons_clean (by decide) (by decide) _ _
          omega
        · rename_i hne
          have hrec := ihm (skipWs r') [] v r h
          have h1 : cqB false (skipWs r') = cqB false r' := cqB_skipWs r'
          omega
      rw [if_neg hc] at h
      by_cases hb : c = '['
      · rw [if_pos hb] at h
        subst hb
        have hbrk : cqB false ('[' :: r') = cqB false r' :=
          cqB_cons_clean (by decide) (by decide) _ _
        split at h
        · rename_i r2 hsk2
          simp only [Option.some.injEq, Prod.mk.injEq] at h
          obtain ⟨-, hr⟩ := h
          subst hr
          have h1 : cqB false (']' :: r2) = cqB false r' := by
            rw [← hsk2]; exact cqB_skipWs r'
          have h2 : cqB false (']' :: r2) = cqB false r2 :=
            cqB_cons_clean (by decide) (by decide) _ _
          omega
        · rename_i hne
          have hrec := ihi (skipWs r') [] v r h
          have h1 : cqB false (skipWs r') = cqB false r' := cqB_skipWs r'
          omega
      rw [if_neg hb] at h
      by_cases hq : c = '"'
      · rw [if_pos hq] at h
        subst hq
        rcases hps : parseJStr r' with _ | ⟨p1, p2⟩
        · rw [hps] at h; simp at h
        rw [hps] at h
        simp only [Option.map_some', Option.some.injEq, Prod.mk.injEq] at h
        obtain ⟨-, hr⟩ := h
        subst hr
        have h1 := cqB_parseJStr hps false
        have h2 : cqB false ('"' :: r') = 1 + cqB false r' := by
          rw [cqB_quote_cons]; simp
        omega
      rw [if_neg hq] at h
      by_cases h4 : ("true".data.isPrefixOf (c :: r')) = true
      · rw [if_pos h4] at h
        simp only [Option.some.injEq, Prod.mk.injEq] at h
        obtain ⟨-, hr⟩ := h
        subst hr
        have := cqB_lit_drop 4 (by decide) (by decide) h4
        omega
      rw [if_neg h4] at h
      by_cases h5 : ("false".data.isPrefixOf (c :: r')) = true
      · rw [if_pos h5] at h
        simp only [Option.some.injEq, Prod.mk.injEq] at h
        obtain ⟨-, hr⟩ := h
        subst hr
        have := cqB_lit_drop 5 (by decide) (by decide) h5
        omega
      rw [if_neg h5] at h
      by_cases h6 : ("null".data.isPrefixOf (c :: r')) = true
      · rw [if_pos h6] at h
        simp only [Option.some.injEq, Prod.mk.injEq] at h
        obtain ⟨-, hr⟩ := h
        subst hr
        have := cqB_lit_drop 4 (by decide) (by decide) h6
        omega
      rw [if_neg h6] at h
      by_cases h7 : ("NaN".data.isPrefixOf (c :: r')) = true
      · rw [if_pos h7] at h
        simp only [Option.some.injEq, Prod.mk.injEq] at h
        obtain ⟨-, hr⟩ := h
        subst hr
        have := cqB_lit_drop 3 (by decide) (by decide) h7
        omega
      rw [if_neg h7] at h
      by_cases h8 : ("Infinity".data.isPrefixOf (c :: r')) = true
      · rw [if_pos h8] at h
        simp only [Option.some.injEq, Prod.mk.injEq] at h
        obtain ⟨-, hr⟩ := h
        subst hr
        have := cqB_lit_drop 8 (by decide) (by decide) h8
        omega
      rw [if_neg h8] at h
      by_cases h9 : ("-Infinity".data.isPrefixOf (c :: r')) = true
      · rw [if_pos h9] at h
        simp only [Option.some.injEq, Prod.mk.injEq] at h
        obtain ⟨-, hr⟩ := h
        subst hr
        have := cqB_lit_drop 9 (by decide) (by decide) h9
        omega
      rw [if_neg h9] at h
      have := (parseJNum_facts h).1
      omega
    · -- parseJMembers
      rw [parseJMembers.eq_def] at h
      dsimp only at h
      split at h
      · rename_i rr
        rcases hps : parseJStr rr with _ | ⟨key, r1⟩
        · rw [hps] at h; simp at h
        rw [hps] at h
        dsimp only at h
        split at h
        · rename_i r2 hsk1
          rcases hpv : parseJVal n r2 with _ | ⟨vv, r3⟩
          · rw [hpv] at h; simp at h
          rw [hpv] at h
          dsimp only at h
          have hquote : cqB false ('"' :: rr) = 1 + cqB false rr := by
            rw [cqB_quote_cons]; simp
          have hstr := cqB_parseJStr hps false
          have hcolon : cqB false (':' :: r2) = cqB false r2 :=
            cqB_cons_clean (by decide) (by decide) _ _
          have hsk1e : cqB false (':' :: r2) = cqB false r1 := by
            rw [← hsk1]; exact cqB_skipWs r1
          have hval := ihv r2 vv r3 hpv
          split at h
          · rename_i r4 hsk2
            have hrec := ihm (skipWs r4) _ v r h
            have hcm : cqB false (',' :: r4) = cqB false r4 :=
              cqB_cons_clean (by decide) (by decide) _ _
            have hsk2e : cqB false (',' :: r4) = cqB false r3 := by
              rw [← hsk2]; exact cqB_skipWs r3
            have hsk3 : cqB false (skipWs r4) = cqB false r4 := cqB_skipWs r4
            omega
          · rename_i r4 hsk2
            simp only [Option.some.injEq, Prod.mk.injEq] at h
            obtain ⟨-, hr⟩ := h
            subst hr
            have hcm : cqB false ('}' :: r4) = cqB false r4 :=
              cqB_cons_clean (by decide) (by decide) _ _
            have hsk2e : cqB false ('}' :: r4) = cqB false r3 := by
              rw [← hsk2]; exact cqB_skipWs r3
            omega
          · simp at h
        · simp at h
      · simp at h
    · -- parseJItems
      rw [parseJItems.eq_def] at h
      dsimp only at h
      rcases hpv : parseJVal n l with _ | ⟨vv, r1⟩
      · rw [hpv] at h; simp at h
      rw [hpv] at h
      dsimp only at h
      have hval := ihv l vv r1 hpv
      split at h
      · rename_i r2 hsk2
        have hrec := ihi r2 _ v r h
        have hcm : cqB false (',' :: r2) = cqB false r2 :=
          cqB_cons_clean (by decide) (by decide) _ _
        have hsk2e : cqB false (',' :: r2) = cqB false r1 := by
          rw [← hsk2]; exact cqB_skipWs r1
        omega
      · rename_i r2 hsk2
        simp only [Option.some.injEq, Prod.mk.injEq] at h
        obtain ⟨-, hr⟩ := h
        subst hr
        have hcm : cqB false (']' :: r2) = cqB false r2 :=
          cqB_cons_clean (by decide) (by decide) _ _
        have hsk2e : cqB false (']' :: r2) = cqB false r1 := by
          rw [← hsk2]; exact cqB_skipWs r1
        omega
      · simp at h

theorem parseJMembers_shape : ∀ (fuel : Nat) (l : List Char)
    (acc : List (String × PyVal)) (v : PyVal) (r : List Char),
    parseJMembers fuel l acc = some (v, r) → ∃ m, v = .dictV m := by
  intro fuel
  induction fuel with
  | zero =>
    intro l acc v r h
    rw [parseJMembers.eq_def] at h
    simp at h
  | succ n ih =>
    intro l acc v r h
    rw [parseJMembers.eq_def] at h
    dsimp only at h
    split at h
    · rename_i rr
      rcases hps : parseJStr rr with _ | ⟨key, r1⟩
      · rw [hps] at h; simp at h
      rw [hps] at h
      dsimp only at h
      split at h
      · rename_i r2 hsk1
        rcases hpv : parseJVal n r2 with _ | ⟨vv, r3⟩
        · rw [hpv] at h; simp at h
        rw [hpv] at h
        dsimp only at h
        split at h
        · exact ih _ _ v r h
        · simp only [Option.some.injEq, Prod.mk.injEq] at h
          exact ⟨_, h.1.symm⟩
        · simp at h
      · simp at h
    · simp at h

theorem parseJItems_shape : ∀ (fuel : Nat) (l : List Char)
    (acc : List PyVal) (v : PyVal) (r : List Char),
    parseJItems fuel l acc = some (v, r) → ∃ xs, v = .listV xs := by
  intro fuel
  induction fuel with
  | zero =>
    intro l acc v r h
    rw [parseJItems.eq_def] at h
    simp at h
  | succ n ih =>
    intro l acc v r h
    rw [parseJItems.eq_def] at h
    dsimp only at h
    rcases hpv : parseJVal n l with _ | ⟨vv, r1⟩
    · rw [hpv] at h; simp at h
    rw [hpv] at h
    dsimp only at h
    split at h
    · exact ih _ _ v r h
    · simp only [Option.some.injEq, Prod.mk.injEq] at h
      exact ⟨_, h.1.symm⟩
    · simp at h

theorem pyLookup_map_overwrite (k0 k : String) (v : PyVal) (hne : k ≠ k0) :
    ∀ m : List (String × PyVal),
    pyLookup (m.map fun e => if e.1 = k0 then (k0, v) else e) k = pyLookup m k := by
  intro m
  induction m with
  | nil => rfl
  | cons e r ih =>
    rcases e with ⟨p, w⟩
    by_cases hp : p = k0
    · subst hp
      simp only [List.map_cons, if_pos rfl]
      show pyLookup ((p, v) :: _) k = pyLookup ((p, w) :: r) k
      rw [pyLookup, pyLookup, if_neg (fun hh => hne hh.symm),
        if_neg (fun hh => hne hh.symm)]
      exact ih
    · simp only [List.map_cons, if_neg hp]
      rw [pyLookup, pyLookup]
      split
      · rfl
      · exact ih

theorem pyLookup_append_ne (k0 k : String) (v : PyVal) (hne : k ≠ k0) :
    ∀ m : List (String × PyVal),
    pyLookup (m ++ [(k0, v)]) k = pyLookup m k := by
  intro m
  induction m with
  | nil =>
    show pyLookup [(k0, v)] k = none
    rw [pyLookup, if_neg (fun hh => hne hh.symm)]
    rfl
  | cons e r ih =>
    rcases e with ⟨p, w⟩
    rw [List.cons_append, pyLookup, pyLookup]
    split
    · rfl
    · exact ih

theorem pyLookup_insertKey_ne (m : List (String × PyVal)) (k0 k : String)
    (v : PyVal) (hne : k ≠ k0) :
    pyLookup (insertKey m k0 v) k = pyLookup m k := by
  unfold insertKey
  split
  · exact pyLookup_map_overwrite k0 k v hne m
  · exact pyLookup_append_ne k0 k v hne m

theorem pyLookup_insertKey_self (m : List (String × PyVal)) (k : String)
    (v : PyVal) : pyLookup (insertKey m k v) k = some v := by
  unfold insertKey
  by_cases hk : pyHasKey m k = true
  · rw [if_pos hk]
    induction m with
    | nil => simp [pyHasKey] at hk
    | cons e r ih =>
      rcases e with ⟨p, w⟩
      by_cases hp : p = k
      · subst hp
        simp only [List.map_cons, if_pos rfl]
        show pyLookup ((p, v) :: _) p = some v
        rw [pyLookup, if_pos rfl]
      · simp only [List.map_cons, if_neg hp]
        rw [pyLookup, if_neg hp]
        apply ih
        simp only [pyHasKey, List.any_cons, Bool.or_eq_true] at hk
        rcases hk with hk | hk
        · exact absurd (of_decide_eq_true hk) hp
        · simpa [pyHasKey] using hk
  · rw [if_neg hk]
    induction m with
    | nil =>
      show pyLookup [(k, v)] k = some v
      rw [pyLookup, if_pos rfl]
    | cons e r ih =>
      rcases e with ⟨p, w⟩
      have hp : ¬p = k := by
        intro hh
        apply hk
        simp [pyHasKey, hh]
      rw [List.cons_append, pyLookup, if_neg hp]
      apply ih
      intro hh
      apply hk
      simp only [pyHasKey, List.any_cons, Bool.or_eq_true]
      right
      simpa [pyHasKey] using hh

theorem parseJVal_strV_quote {fuel : Nat} {l : List Char} {x : String}
    {r : List Char} (h : parseJVal fuel l = some (.strV x, r)) :
    1 ≤ cqB false l := by
  match fuel with
  | 0 =>
    rw [parseJVal.eq_def] at h
    simp at h
  | n + 1 =>
    rw [parseJVal.eq_def] at h
    dsimp only at h
    split at h
    · simp at h
    rename_i c r' hsk
    have hskip : cqB false (c :: r') = cqB false l := by
      rw [← hsk]; exact cqB_skipWs l
    by_cases hc : c = '{'
    · rw [if_pos hc] at h
      split at h
      · simp at h
      · obtain ⟨m, hm⟩ := parseJMembers_shape _ _ _ _ _ h
        simp at hm
    rw [if_neg hc] at h
    by_cases hb : c = '['
    · rw [if_pos hb] at h
      split at h
      · simp at h
      · obtain ⟨xs, hxs⟩ := parseJItems_shape _ _ _ _ _ h
        simp at hxs
    rw [if_neg hb] at h
    by_cases hq : c = '"'
    · subst hq
      have h2 : cqB false ('"' :: r') = 1 + cqB false r' := by
        rw [cqB_quote_cons]; simp
      omega
    rw [if_neg hq] at h
    by_cases h4 : ("true".data.isPrefixOf (c :: r')) = true
    · rw [if_pos h4] at h; simp at h
    rw [if_neg h4] at h
    by_cases h5 : ("false".data.isPrefixOf (c :: r')) = true
    · rw [if_pos h5] at h; simp at h
    rw [if_neg h5] at h
    by_cases h6 : ("null".data.isPrefixOf (c :: r')) = true
    · rw [if_pos h6] at h; simp at h
    rw [if_neg h6] at h
    by_cases h7 : ("NaN".data.isPrefixOf (c :: r')) = true
    · rw [if_pos h7] at h; simp at h
    rw [if_neg h7] at h
    by_cases h8 : ("Infinity".data.isPrefixOf (c :: r')) = true
    · rw [if_pos h8] at h; simp at h
    rw [if_neg h8] at h
    by_cases h9 : ("-Infinity".data.isPrefixOf (c :: r')) = true
    · rw [if_pos h9] at h; simp at h
    rw [if_neg h9] at h
    rcases (parseJNum_facts h).2 with ⟨nn, hnn⟩ | ⟨qq, hqq⟩
    · simp at hnn
    · simp at hqq

theorem parseJMembers_two : ∀ (fuel : Nat) (l : List Char)
    (acc : List (String × PyVal)) (m : List (String × PyVal)) (r : List Char),
    parseJMembers fuel l acc = some (.dictV m, r) →
    ∀ x : String, pyLookup m "answer" = some (.strV x) →
      pyLookup acc "answer" = some (.strV x) ∨ 2 ≤ cqB false l := by
  intro fuel
  induction fuel with
  | zero =>
    intro l acc m r h x hlk
    rw [parseJMembers.eq_def] at h
    simp at h
  | succ n ih =>
    intro l acc m r h x hlk
    rw [parseJMembers.eq_def] at h
    dsimp only at h
    split at h
    · rename_i rr
      rcases hps : parseJStr rr with _ | ⟨key, r1⟩
      · rw [hps] at h; simp at h
      rw [hps] at h
      dsimp only at h
      split at h
      · rename_i r2 hsk1
        rcases hpv : parseJVal n r2 with _ | ⟨vv, r3⟩
        · rw [hpv] at h; simp at h
        rw [hpv] at h
        dsimp only at h
        have hquote : cqB false ('"' :: rr) = 1 + cqB false rr := by
          rw [cqB_quote_cons]; simp
        have hstr := cqB_parseJStr hps false
        have hcolon : cqB false (':' :: r2) = cqB false r2 :=
          cqB_cons_clean (by decide) (by decide) _ _
        have hsk1e : cqB false (':' :: r2) = cqB false r1 := by
          rw [← hsk1]; exact cqB_skipWs r1
        have hchain2 : ∀ y : String, vv = .strV y → 2 ≤ cqB false ('"' :: rr) := by
          intro y hy
          subst hy
          have hsv := parseJVal_strV_quote hpv
          omega
        split at h
        · -- ',' arm: recursive call
          rename_i r4 hsk2
          rcases ih (skipWs r4) _ m r h x hlk with hacc | htwo
          · -- the entry is already in the new accumulator
            by_cases hkey : ("answer" : String) = (⟨key⟩ : String)
            · rw [hkey, pyLookup_insertKey_self] at hacc
              simp only [Option.some.injEq] at hacc
              exact Or.inr (hchain2 x hacc)
            · rw [pyLookup_insertKey_ne _ _ _ _ hkey] at hacc
              exact Or.inl hacc
          · -- the two quotes are further right
            right
            have hval := (cqB_parse_mono n).1 r2 vv r3 hpv
            have hcm : cqB false (',' :: r4) = cqB false r4 :=
              cqB_cons_clean (by decide) (by decide) _ _
            have hsk2e : cqB false (',' :: r4) = cqB false r3 := by
              rw [← hsk2]; exact cqB_skipWs r3
            have hsk3 : cqB false (skipWs r4) = cqB false r4 := cqB_skipWs r4
            omega
        · -- '}' arm: the dict is complete
          rename_i r4 hsk2
          simp only [Option.some.injEq, Prod.mk.injEq, PyVal.dictV.injEq] at h
          obtain ⟨hm, -⟩ := h
          rw [← hm] at hlk
          by_cases hkey : ("answer" : String) = (⟨key⟩ : String)
          · rw [hkey, pyLookup_insertKey_self] at hlk
            simp only [Option.some.injEq] at hlk
            exact Or.inr (hchain2 x hlk)
          · rw [pyLookup_insertKey_ne _ _ _ _ hkey] at hlk
            exact Or.inl hlk
        · simp at h
      · simp at h
    · simp at h

theorem pyJsonLoads_answer_two {s : String} {m : List (String × PyVal)}
    {x : String} (h : pyJsonLoads s = some (.dictV m))
    (hlk : pyLookup m "answer" = some (.strV x)) : 2 ≤ cqB false s.data := by
  unfold pyJsonLoads at h
  rcases hpv : parseJVal (s.data.length + 1) s.data with _ | ⟨v, r⟩
  · rw [hpv] at h; simp at h
  rw [hpv] at h
  dsimp only at h
  split at h
  · simp only [Option.some.injEq] at h
    subst h
    rw [parseJVal.eq_def] at hpv
    dsimp only at hpv
    split at hpv
    · simp at hpv
    rename_i c r' hsk
    have hskip : cqB false (c :: r') = cqB false s.data := by
      rw [← hsk]; exact cqB_skipWs s.data
    by_cases hc : c = '{'
    · rw [if_pos hc] at hpv
      subst hc
      have hbrace : cqB false ('{' :: r') = cqB false r' :=
        cqB_cons_clean (by decide) (by decide) _ _
      split at hpv
      · -- empty dict: the lookup is impossible
        simp only [Option.some.injEq, Prod.mk.injEq, PyVal.dictV.injEq] at hpv
        rw [← hpv.1] at hlk
        simp [pyLookup] at hlk
      · rcases parseJMembers_two _ _ _ _ _ hpv x hlk with hacc | htwo
        · simp [pyLookup] at hacc
        · have h1 : cqB false (skipWs r') = cqB false r' := cqB_skipWs r'
          omega
    rw [if_neg hc] at hpv
    by_cases hb : c = '['
    · rw [if_pos hb] at hpv
      split at hpv
      · simp at hpv
      · obtain ⟨xs, hxs⟩ := parseJItems_shape _ _ _ _ _ hpv
        simp at hxs
    rw [if_neg hb] at hpv
    by_cases hq : c = '"'
    · rw [if_pos hq] at hpv
      rcases hps : parseJStr r' with _ | ⟨p1, p2⟩
      · rw [hps] at hpv; simp at hpv
      · rw [hps] at hpv; simp at hpv
    rw [if_neg hq] at hpv
    by_cases h4 : ("true".data.isPrefixOf (c :: r')) = true
    · rw [if_pos h4] at hpv; simp at hpv
    rw [if_neg h4] at hpv
    by_cases h5 : ("false".data.isPrefixOf (c :: r')) = true
    · rw [if_pos h5] at hpv; simp at hpv
    rw [if_neg h5] at hpv
    by_cases h6 : ("null".data.isPrefixOf (c :: r')) = true
    · rw [if_pos h6] at hpv; simp at hpv
    rw [if_neg h6] at hpv
    by_cases h7 : ("NaN".data.isPrefixOf (c :: r')) = true
    · rw [if_pos h7] at hpv; simp at hpv
    rw [if_neg h7] at hpv
    by_cases h8 : ("Infinity".data.isPrefixOf (c :: r')) = true
    · rw [if_pos h8] at hpv; simp at hpv
    rw [if_neg h8] at hpv
    by_cases h9 : ("-Infinity".data.isPrefixOf (c :: r')) = true
    · rw [if_pos h9] at hpv; simp at hpv
    rw [if_neg h9] at hpv
    rcases (parseJNum_facts hpv).2 with ⟨nn, hnn⟩ | ⟨qq, hqq⟩
    · simp at hnn
    · simp at hqq
  · simp at h

theorem getD_map_mk : ∀ (xs : List (List Char)) (i : Nat),
    ((xs.map fun l => (⟨l⟩ : String)).getD i "").data = xs.getD i [] := by
  intro xs
  induction xs with
  | nil => intro i; rfl
  | cons a r ih =>
    intro i
    cases i with
    | zero => rfl
    | succ j =>
      rw [List.map_cons, List.getD_cons_succ, List.getD_cons_succ]
      exact ih j

theorem pySplitGo_first (sep : List Char) : ∀ (fuel : Nat) (acc l : List Char),
    ∃ p t, (pySplitGo sep fuel acc l).getD 0 [] = acc.reverse ++ p ∧
      l = p ++ t := by
  intro fuel
  induction fuel with
  | zero =>
    intro acc l
    refine ⟨[], l, ?_, rfl⟩
    cases l <;> simp [pySplitGo]
  | succ n ih =>
    intro acc l
    cases l with
    | nil => exact ⟨[], [], by simp [pySplitGo], rfl⟩
    | cons c r =>
      rw [pySplitGo.eq_def]
      dsimp only
      split
      · exact ⟨[], c :: r, by simp, rfl⟩
      · obtain ⟨p, t, h1, h2⟩ := ih (c :: acc) r
        refine ⟨c :: p, t, ?_, by rw [List.cons_append, ← h2]⟩
        rw [h1, List.reverse_cons, List.append_assoc]
        rfl

theorem pySplitGo_second (sep : List Char) :
    ∀ (fuel : Nat) (acc l : List Char),
    (pySplitGo sep fuel acc l).getD 1 [] = [] ∨
    ∃ pre t2, l = pre ++ sep ++ ((pySplitGo sep fuel acc l).getD 1 []) ++ t2 := by
  intro fuel
  induction fuel with
  | zero =>
    intro acc l
    left
    cases l <;> simp [pySplitGo]
  | succ n ih =>
    intro acc l
    cases l with
    | nil => left; simp [pySplitGo]
    | cons c r =>
      rw [pySplitGo.eq_def]
      dsimp only
      split
      · rename_i hs
        right
        rw [List.getD_cons_succ]
        obtain ⟨p, t, h1, h2⟩ := pySplitGo_first sep n [] ((c :: r).drop sep.length)
        simp only [List.reverse_nil, List.nil_append] at h1
        rw [h1]
        obtain ⟨u, hu⟩ := isPrefixOf_ex hs.2
        rw [hu, List.drop_left] at h2
        exact ⟨[], t, by rw [hu, h2]; simp⟩
      · rcases ih (c :: acc) r with hl | ⟨pre, t2, heq⟩
        · left; exact hl
        · right
          exact ⟨c :: pre, t2, by nth_rewrite 1 [heq]; simp only [List.cons_append, List.append_assoc]⟩

theorem pyStripList_decomp (l : List Char) :
    ∃ u w, l = u ++ pyStripList l ++ w ∧ (∀ c ∈ u, pyIsSpace c = true) := by
  refine ⟨l.takeWhile pyIsSpace,
    ((l.dropWhile pyIsSpace).reverse.takeWhile pyIsSpace).reverse, ?_,
    fun c hc => List.mem_takeWhile_imp hc⟩
  show l = _ ++ dropEndWhile pyIsSpace (l.dropWhile pyIsSpace) ++ _
  unfold dropEndWhile
  conv_lhs =>
    rw [← List.takeWhile_append_dropWhile pyIsSpace l,
      ← List.reverse_reverse (List.dropWhile pyIsSpace l),
      ← List.takeWhile_append_dropWhile pyIsSpace
        (List.dropWhile pyIsSpace l).reverse]
  rw [List.reverse_append, List.append_assoc]

theorem backtick_not_in_skel : ('`' : Char) ∉ "\x7b\"answer\": \"".data := by
  decide

theorem dumps_fence_tail {c : String} {pre X : List Char}
    (h : (pyJsonDumpsAnswer c).data = pre ++ ("```json".data ++ X)) :
    ∃ c', pre = "\x7b\"answer\": \"".data ++ c' ∧
      escList c.data ++ ['"', '\x7d'] = c' ++ ("```json".data ++ X) := by
  have hR : (pyJsonDumpsAnswer c).data =
      "\x7b\"answer\": \"".data ++ (escList c.data ++ ['"', '\x7d']) := rfl
  rw [hR] at h
  rcases List.append_eq_append_iff.mp h.symm with ⟨a, ha1, ha2⟩ | ⟨c', hc1, hc2⟩
  · cases a with
    | nil =>
      refine ⟨[], by rw [ha1]; simp, ?_⟩
      simp only [List.nil_append] at ha2 ⊢
      exact ha2.symm
    | cons a0 a' =>
      exfalso
      have hhead := congrArg List.head? ha2
      simp only [List.cons_append, List.head?] at hhead
      rw [Option.some.injEq] at hhead
      apply backtick_not_in_skel
      rw [ha1, ← hhead]
      simp
  · exact ⟨c', hc1, hc2⟩

theorem pyIsSpace_ne_bs {x : Char} (h : pyIsSpace x = true) : x ≠ '\\' := by
  rintro rfl
  exact absurd h (by decide)

theorem data_nil_eq {s : String} (h : s.data = []) : s = "" := by
  cases s
  exact congrArg String.mk h

theorem pySplit_data_getD (s sep : String) (i : Nat) :
    ((pySplit s sep).getD i "").data =
      (pySplitGo sep.data s.data.length [] s.data).getD i [] := by
  unfold pySplit pySplitList
  exact getD_map_mk _ i

theorem cqB_fenceExtract_dumps (c : String) :
    cqB false (fenceExtract (pyJsonDumpsAnswer c)).data ≤ 1 := by
  have hmap1 := pySplit_data_getD (pyJsonDumpsAnswer c) "```json" 1
  rcases pySplitGo_second "```json".data ((pyJsonDumpsAnswer c).data.length) []
      (pyJsonDumpsAnswer c).data with h1 | ⟨pre, t2, hdec⟩
  · have hs1 : (pySplit (pyJsonDumpsAnswer c) "```json").getD 1 "" = "" :=
      data_nil_eq (hmap1.trans h1)
    unfold fenceExtract
    rw [hs1]
    decide
  · obtain ⟨p, t3, hp0, hp3⟩ := pySplitGo_first "```".data
      (((pySplit (pyJsonDumpsAnswer c) "```json").getD 1 "").data.length) []
      (((pySplit (pyJsonDumpsAnswer c) "```json").getD 1 "").data)
    simp only [List.reverse_nil, List.nil_append] at hp0
    have hinner : ((pySplit ((pySplit (pyJsonDumpsAnswer c) "```json").getD 1 "")
        "```").getD 0 "").data = p :=
      (pySplit_data_getD _ "```" 0).trans hp0
    obtain ⟨u0, w0, hsd, hws⟩ := pyStripList_decomp p
    rw [← hmap1] at hdec
    have hdec2 : (pyJsonDumpsAnswer c).data = pre ++ ("```json".data ++
        (((pySplit (pyJsonDumpsAnswer c) "```json").getD 1 "").data ++ t2)) := by
      rw [hdec]
      simp only [List.append_assoc]
    obtain ⟨c', hc1, hc2⟩ := dumps_fence_tail hdec2
    rw [hp3, hsd] at hc2
    have hfull : escList c.data ++ ['"', '\x7d'] =
        (c' ++ ("```json".data ++ u0)) ++ pyStripList p ++ (w0 ++ (t3 ++ t2)) := by
      rw [hc2]
      simp only [List.append_assoc]
    have hstB : stB false (c' ++ ("```json".data ++ u0)) = false := by
      rw [stB_append, stB_append, stB_fence]
      exact stB_noBS fun x hx => pyIsSpace_ne_bs (hws x hx)
    have hbound := cqB_mid_le hstB hfull
    have hwrap := cqB_wrap c
    unfold fenceExtract
    rw [show ∀ s : String, (pyStrip s).data = pyStripList s.data from fun s => rfl,
      hinner]
    omega

theorem fenceAnswer_dumps (c : String) :
    fenceAnswer (pyJsonDumpsAnswer c) = none := by
  unfold fenceAnswer
  rcases hload : pyJsonLoads (fenceExtract (pyJsonDumpsAnswer c)) with _ | v
  · rfl
  rcases v with _ | b | n | q | nf | s | xs | m
  case dictV =>
    rcases hlk : pyLookup m "answer" with _ | w
    · simp [hlk]
    rcases w with _ | b | n | q | nf | x | xs | m2
    case strV =>
      exfalso
      have h2 := pyJsonLoads_answer_two hload hlk
      have h1 := cqB_fenceExtract_dumps c
      omega
    all_goals simp [hlk]
  all_goals rfl

theorem fenceAttempt_dumps (c : String) :
    fenceAttempt (pyJsonDumpsAnswer c) = none := by
  unfold fenceAttempt
  split
  · exact fenceAnswer_dumps c
  · rfl

theorem dumpsAnswer_ne_empty (c : String) : pyJsonDumpsAnswer c ≠ "" := by
  intro h
  have hd := congrArg String.data h
  rw [dumpsAnswer_data] at hd
  simp at hd

theorem dumpsAnswer_ne_lit (c : String) (h1 : pyStrip c ≠ "") :
    pyJsonDumpsAnswer c ≠ "\x7b\"answer\": \"\"\x7d" := by
  intro h
  have hd := congrArg String.data h
  rw [dumpsAnswer_data] at hd
  rw [show ("\x7b\"answer\": \"\"\x7d" : String).data =
    '\x7b' :: '"' :: 'a' :: 'n' :: 's' :: 'w' :: 'e' :: 'r' :: '"' :: ':' ::
      ' ' :: '"' :: ['"', '\x7d'] from rfl] at hd
  simp only [List.cons.injEq, true_and] at hd
  have hlen := congrArg List.length hd
  simp only [List.length_append, List.length_cons, List.length_nil] at hlen
  have hnil : escList c.data = [] :=
    List.eq_nil_of_length_eq_zero (by omega)
  apply h1
  rw [data_nil_eq (escList_eq_nil hnil)]
  rfl

theorem startsWith_dumpsAnswer (c : String) :
    pyStartsWith (pyJsonDumpsAnswer c) "\x7b\"answer\":" = true := by
  unfold pyStartsWith
  rw [show (pyJsonDumpsAnswer c).data =
    "\x7b\"answer\":".data ++ (' ' :: '"' :: (escList c.data ++ ['"', '\x7d']))
    from rfl]
  exact isPrefixOf_append _ _

theorem isSuffixOf_singleton_append (x : Char) (u : List Char) :
    ([x].isSuffixOf (u ++ [x])) = true := by
  unfold List.isSuffixOf
  rw [List.reverse_append]
  simp [List.isPrefixOf]

theorem endsWith_dumpsAnswer (c : String) :
    pyEndsWith (pyJsonDumpsAnswer c) "\x7d" = true := by
  unfold pyEndsWith
  have hdataR : (pyJsonDumpsAnswer c).data =
      ("\x7b\"answer\": \"".data ++ escList c.data ++ ['"']) ++ ['\x7d'] := by
    rw [dumpsAnswer_data]
    simp
  rw [hdataR]
  exact isSuffixOf_singleton_append _ _

theorem stepA_dumps (c : String) (hc : c ≠ "") (hs : pyStrip c ≠ "") :
    stepA (.dictV [("answer", .strV c)]) =
      some (.ret (pyStrip (pyReplace c "*" ""))) := by
  unfold stepA
  rw [show pyInAnswer (.dictV [("answer", .strV c)]) = some true from rfl]
  dsimp only
  rw [show pyLookup [("answer", .strV c)] "answer" = some (.strV c) from rfl]
  dsimp only
  rw [if_neg (by simp [pyFalsy, hc] : ¬pyFalsy (.strV c) = true)]
  rw [if_neg hs]

theorem processStrInner_dumps (c : String) (hs : pyStrip c ≠ "") :
    processStrInner (pyJsonDumpsAnswer c) =
      .ret (pyStrip (pyReplace c "*" "")) := by
  have hc : c ≠ "" := by rintro rfl; exact hs rfl
  unfold processStrInner
  rw [pyJsonLoads_dumpsAnswer]
  dsimp only
  rw [pyStrip_dumpsAnswer, startsWith_dumpsAnswer, endsWith_dumpsAnswer]
  rw [if_pos (by simp)]
  rw [stepA_dumps c hc hs]

theorem process_dumps (c : String) (hs : pyStrip c ≠ "") :
    process_deepseek_response (.strV (pyJsonDumpsAnswer c)) =
      pyStrip (pyReplace c "*" "") := by
  unfold process_deepseek_response
  rw [if_neg (by simp [pyFalsy, dumpsAnswer_ne_empty c] :
    ¬pyFalsy (.strV (pyJsonDumpsAnswer c)) = true)]
  rw [if_neg (by simp [isEmptyAnswerLit, dumpsAnswer_ne_lit c hs] :
    ¬isEmptyAnswerLit (.strV (pyJsonDumpsAnswer c)) = true)]
  rw [show step306 (.strV (pyJsonDumpsAnswer c)) = none from rfl]
  dsimp only
  rw [show step330 (.strV (pyJsonDumpsAnswer c)) =
    fenceAttempt (pyJsonDumpsAnswer c) from rfl, fenceAttempt_dumps]
  dsimp only
  show (match processTry (.strV (pyJsonDumpsAnswer c)) with
    | .ret out => out | .fell => fb2 | .raised => fb2) = _
  rw [show processTry (.strV (pyJsonDumpsAnswer c)) =
    processStrTry (pyJsonDumpsAnswer c) from rfl]
  unfold processStrTry
  rw [pyStrip_dumpsAnswer]
  rw [if_neg (dumpsAnswer_ne_empty c)]
  rw [processStrInner_dumps c hs]

/-- C5: round trip through the wrap/unwrap pair.  For every content string
whose stripped form is non-empty and which does not both start with `\x7b` and
end with `\x7d`, the wrap step of `query_deepseek` returns exactly
`json.dumps(\x7b"answer": content\x7d)`, and `process_deepseek_response` applied to
that wrapped string returns the content with every `*` removed and surrounding
whitespace stripped. -/
theorem c5_wrap_roundtrip (c : String)
    (h1 : pyStrip c ≠ "")
    (h2 : ¬(pyStartsWith (pyStrip c) "\x7b" = true ∧
      pyEndsWith (pyStrip c) "\x7d" = true)) :
    query_deepseek_format c = pyJsonDumpsAnswer c ∧
    process_deepseek_response (.strV (pyJsonDumpsAnswer c)) =
      pyStrip (pyReplace c "*" "") := by
  constructor
  · unfold query_deepseek_format
    rw [if_pos]
    simp only [Bool.not_eq_true', Bool.and_eq_false_iff]
    rcases Decidable.em (pyStartsWith (pyStrip c) "\x7b" = true) with hA | hA
    · rcases Decidable.em (pyEndsWith (pyStrip c) "\x7d" = true) with hB | hB
      · exact absurd ⟨hA, hB⟩ h2
      · exact Or.inr (Bool.not_eq_true _ ▸ hB)
    · exact Or.inl (Bool.not_eq_true _ ▸ hA)
  · exact process_dumps c h1

theorem c5_wrap_roundtrip_witness :
    query_deepseek_format "hi *there*" = pyJsonDumpsAnswer "hi *there*" ∧
    process_deepseek_response (.strV (pyJsonDumpsAnswer "hi *there*")) =
      pyStrip (pyReplace "hi *there*" "*" "") :=
  c5_wrap_roundtrip "hi *there*" (by decide) (by decide)
